import Mathlib

/-!
Verification of the capability-invocation SDK (client/worker library pair).

Shallow embedding conventions:
* JavaScript strings are modelled as `List Char` (abbreviated `Str`);
  string literals are written `"...".data`.
* JavaScript numbers that can be `Infinity` (cache TTLs / expiry stamps)
  are modelled by `JNum`; plain clock readings are `Int` milliseconds.
* `Date.now()` is passed explicitly as a `now : Int` argument.
* `Map` objects are modelled as insertion-ordered association lists
  (`JS Map.set` keeps the original insertion position of an existing key,
  and `keys().next()` returns the first inserted key).
* Asynchronous effects (NATS requests, auth providers) are modelled as
  explicit oracle arguments giving the outcome of the awaited call.
-/

set_option autoImplicit false

abbrev Str := List Char

/-- JavaScript number extended with positive infinity (used for cache TTLs:
the bootstrap seeds entries with `Number.POSITIVE_INFINITY`). -/
inductive JNum where
  | fin : Int → JNum
  | inf : JNum
deriving DecidableEq, Repr

namespace JNum

/-- Addition: anything plus `Infinity` is `Infinity` (as in JS floats). -/
def add : JNum → JNum → JNum
  | fin a, fin b => fin (a + b)
  | _, _ => inf

/-- `a <= b` on JS numbers (no `NaN` arises in the modelled code paths). -/
def leb : JNum → JNum → Bool
  | fin a, fin b => a ≤ b
  | inf, fin _ => false
  | _, inf => true

/-- `a < b` on JS numbers. -/
def ltb : JNum → JNum → Bool
  | fin a, fin b => a < b
  | inf, _ => false
  | fin _, inf => true

/-- JS truthiness of a number: `0` is falsy, everything else (incl. `Infinity`)
is truthy. -/
def truthy : JNum → Bool
  | fin a => a ≠ 0
  | inf => true

end JNum

/-- Insertion-ordered association map, the model of a JS `Map`. -/
abbrev JMap (V : Type) := List (Str × V)

/-- `map.get(k)`. -/
def jmGet {V : Type} (k : Str) : JMap V → Option V
  | [] => none
  | (k', v) :: rest => if k' = k then some v else jmGet k rest

/-- `map.set(k, v)`: replaces in place when the key exists (JS `Map` keeps the
original insertion position), otherwise appends. -/
def jmSet {V : Type} (k : Str) (v : V) : JMap V → JMap V
  | [] => [(k, v)]
  | (k', v') :: rest => if k' = k then (k', v) :: rest else (k', v') :: jmSet k v rest

/-- `map.delete(k)`.  A JS `Map` holds each key at most once, so removing
every association with key `k` coincides with deleting the entry. -/
def jmDelete {V : Type} (k : Str) (m : JMap V) : JMap V :=
  m.filter (fun kv => kv.1 ≠ k)

-- ══════════════════════════════════════════════════════════════════════
-- TTL cache (client/node/src/cache/ttl-cache.ts)
-- ══════════════════════════════════════════════════════════════════════

/-- A cache entry.  `value` is `Option T` because `setNegative` stores the JS
`null` (modelled `none`); `staleAt` is absent when stale-while-revalidate is
disabled. -/
structure CacheEntry (T : Type) where
  value : Option T
  expiresAt : JNum
  staleAt : Option JNum
  isNegative : Bool
  etag : Option Str
deriving DecidableEq, Repr

structure TTLCacheConfig where
  defaultTtlMs : Int
  negativeTtlMs : Int
  staleWhileRevalidate : Bool
  staleWindowMs : Int
  maxEntries : Option Nat
deriving DecidableEq, Repr

/-- Result shape of `TTLCache.get`.  `value` is `null` (`none`) when the entry
is missing, expired, or negative. -/
structure TTLGetResult (T : Type) where
  value : Option T
  found : Bool
  isStale : Bool
  isNegative : Bool
deriving DecidableEq, Repr

/-- `TTLCache.get` — returns the read result together with the cache map
afterwards (an expired entry past its stale window is deleted by `get`). -/
def ttlGet {T : Type} (cfg : TTLCacheConfig) (m : JMap (CacheEntry T)) (key : Str)
    (now : Int) : TTLGetResult T × JMap (CacheEntry T) :=
  match jmGet key m with
  | none => (⟨none, false, false, false⟩, m)
  | some entry =>
    if JNum.ltb entry.expiresAt (JNum.fin now) then
      -- now > entry.expiresAt
      if cfg.staleWhileRevalidate
          && (match entry.staleAt with
              | some s => JNum.truthy s && JNum.leb (JNum.fin now) s
              | none => false) then
        (⟨entry.value, true, true, entry.isNegative⟩, m)
      else
        (⟨none, false, false, false⟩, jmDelete key m)
    else
      (⟨entry.value, true, false, entry.isNegative⟩, m)

/-- The first key of the map (JS `cache.keys().next().value`). -/
def ttlEvictOldest {T : Type} (m : JMap (CacheEntry T)) : JMap (CacheEntry T) :=
  match m with
  | [] => m
  | (k, _) :: _ => jmDelete k m

/-- `TTLCache.set`.  `ttlMs` is the optional override (a `JNum`, since the
bootstrap seeds entries with an infinite TTL); `value` is `Option T` to admit
the `null` stored by `setNegative`. -/
def ttlSet {T : Type} (cfg : TTLCacheConfig) (m : JMap (CacheEntry T)) (key : Str)
    (value : Option T) (ttlMs : Option JNum) (isNegative : Bool) (etag : Option Str)
    (now : Int) : JMap (CacheEntry T) :=
  let m1 :=
    match cfg.maxEntries with
    | some mx => if mx ≠ 0 ∧ m.length ≥ mx then ttlEvictOldest m else m
    | none => m
  let effectiveTtl : JNum :=
    if isNegative then JNum.fin cfg.negativeTtlMs
    else ttlMs.getD (JNum.fin cfg.defaultTtlMs)
  let expiresAt := JNum.add (JNum.fin now) effectiveTtl
  let staleAt : Option JNum :=
    if cfg.staleWhileRevalidate then some (JNum.add expiresAt (JNum.fin cfg.staleWindowMs))
    else none
  jmSet key ⟨value, expiresAt, staleAt, isNegative, etag⟩ m1

/-- `TTLCache.setNegative`. -/
def ttlSetNegative {T : Type} (cfg : TTLCacheConfig) (m : JMap (CacheEntry T))
    (key : Str) (now : Int) : JMap (CacheEntry T) :=
  ttlSet cfg m key none none true none now

/-- `TTLCache.invalidateMatching` — deletes every key satisfying the predicate,
returning the new map and the count of deleted entries. -/
def ttlInvalidateMatching {T : Type} (m : JMap (CacheEntry T)) (p : Str → Bool) :
    JMap (CacheEntry T) × Nat :=
  (m.filter (fun kv => !p kv.1), (m.filter (fun kv => p kv.1)).length)

-- ══════════════════════════════════════════════════════════════════════
-- Registry types (client/src/types/registry.ts), resolution cache
-- (client/node/src/resolution/cache.ts)
-- ══════════════════════════════════════════════════════════════════════

structure ResolutionContext where
  tenantId : Option Str
  env : Option Str
deriving DecidableEq, Repr

/-- `ResolveOutput` (the fields the resolution subsystem reads; the optional
`methods` / schema payloads are opaque to every claim and omitted). -/
structure ResolveOutput where
  canonicalIdentity : Str
  natsUrl : Str
  subject : Str
  major : Int
  resolvedVersion : Str
  status : Str
  ttlSeconds : Int
  etag : Str
deriving DecidableEq, Repr

instance : Inhabited ResolveOutput :=
  ⟨⟨[], [], [], 0, [], [], 0, []⟩⟩

structure ResolutionCacheConfig where
  ttl : TTLCacheConfig
  includeTenantInKey : Bool
  includeEnvInKey : Bool
deriving DecidableEq, Repr

/-- `defaultResolutionCacheConfig`. -/
def defaultResolutionCacheConfig : ResolutionCacheConfig :=
  { ttl := { defaultTtlMs := 300000, negativeTtlMs := 30000,
             staleWhileRevalidate := true, staleWindowMs := 60000,
             maxEntries := some 10000 }
    includeTenantInKey := true
    includeEnvInKey := true }

/-- Arguments of `ResolutionCache.buildKey`. -/
structure BuildKeyParams where
  cap : Str
  ver : Option Str
  canonicalIdentity : Option Str
  ctx : Option ResolutionContext
deriving DecidableEq, Repr

/-- JS truthiness of an optional string (`undefined` and `""` are falsy). -/
def strTruthy : Option Str → Bool
  | none => false
  | some s => s ≠ []

/-- `ResolutionCache.buildKey`. -/
def buildKey (cfg : ResolutionCacheConfig) (params : BuildKeyParams) : Str :=
  match params.canonicalIdentity with
  | some ci =>
    let parts := [ci]
    let parts := parts ++
      (if cfg.includeTenantInKey ∧ strTruthy (params.ctx.bind (·.tenantId)) then
        ["t:".data ++ ((params.ctx.bind (·.tenantId)).getD [])] else [])
    let parts := parts ++
      (if cfg.includeEnvInKey ∧ strTruthy (params.ctx.bind (·.env)) then
        ["e:".data ++ ((params.ctx.bind (·.env)).getD [])] else [])
    List.intercalate "|".data parts
  | none =>
    let parts := [params.cap]
    let parts := parts ++
      (if strTruthy params.ver then ["v:".data ++ params.ver.getD []] else [])
    let parts := parts ++
      (if cfg.includeTenantInKey ∧ strTruthy (params.ctx.bind (·.tenantId)) then
        ["t:".data ++ ((params.ctx.bind (·.tenantId)).getD [])] else [])
    let parts := parts ++
      (if cfg.includeEnvInKey ∧ strTruthy (params.ctx.bind (·.env)) then
        ["e:".data ++ ((params.ctx.bind (·.env)).getD [])] else [])
    List.intercalate "|".data parts

/-- The resolution cache is a `TTLCache<ResolveOutput>`. -/
abbrev ResCacheMap := JMap (CacheEntry ResolveOutput)

/-- Key-building arguments of `ResolutionCache.get` / `set` / `setNegative`
(these methods never pass `canonicalIdentity`). -/
structure ResCacheParams where
  cap : Str
  ver : Option Str
  ctx : Option ResolutionContext
deriving DecidableEq, Repr

def resCacheKey (cfg : ResolutionCacheConfig) (p : ResCacheParams) : Str :=
  buildKey cfg ⟨p.cap, p.ver, none, p.ctx⟩

/-- `ResolutionCache.get`. -/
def resCacheGet (cfg : ResolutionCacheConfig) (m : ResCacheMap) (p : ResCacheParams)
    (now : Int) : TTLGetResult ResolveOutput × ResCacheMap :=
  ttlGet cfg.ttl m (resCacheKey cfg p) now

/-- `ResolutionCache.set`: when no explicit `ttlMs` override is given, a
`ttlSeconds` of `0` on the value means an infinite TTL. -/
def resCacheSet (cfg : ResolutionCacheConfig) (m : ResCacheMap) (p : ResCacheParams)
    (value : ResolveOutput) (ttlMs : Option JNum) (now : Int) : ResCacheMap :=
  let ttl : JNum :=
    match ttlMs with
    | some t => t
    | none => if value.ttlSeconds = 0 then JNum.inf else JNum.fin (value.ttlSeconds * 1000)
  ttlSet cfg.ttl m (resCacheKey cfg p) (some value) (some ttl) false (some value.etag) now

/-- `ResolutionCache.setNegative`. -/
def resCacheSetNegative (cfg : ResolutionCacheConfig) (m : ResCacheMap)
    (p : ResCacheParams) (now : Int) : ResCacheMap :=
  ttlSetNegative cfg.ttl m (resCacheKey cfg p) now

/-- `ResolutionCache.invalidateCapability` — removes every entry whose key
starts with the literal string `app + "." + name`. -/
def resCacheInvalidateCapability (m : ResCacheMap) (app name : Str) :
    ResCacheMap × Nat :=
  let capPfx := app ++ ".".data ++ name
  ttlInvalidateMatching m (fun key => capPfx.isPrefixOf key)

-- ══════════════════════════════════════════════════════════════════════
-- JS numeric string helpers (parseInt, template interpolation)
-- ══════════════════════════════════════════════════════════════════════

/-- JS whitespace characters (the `\\s` class / `trim()` set), enumerated
explicitly (U+2000 through U+200A are listed one by one). -/
def jsSpaceChars : List Char :=
  [' ', '\t', '\n', '\x0b', '\x0c', '\r', '\u00a0', '\u1680',
   '\u2000', '\u2001', '\u2002', '\u2003', '\u2004', '\u2005', '\u2006',
   '\u2007', '\u2008', '\u2009', '\u200a',
   '\u2028', '\u2029', '\u202f', '\u205f', '\u3000', '\ufeff']

def isJsSpace (c : Char) : Bool :=
  jsSpaceChars.contains c

/-- Numeric value of a maximal leading run of decimal digits; `none` when the
run is empty (contributes `NaN` in JS). -/
def digitsVal (s : Str) : Option Nat :=
  let ds := s.takeWhile Char.isDigit
  if ds = [] then none
  else some (ds.foldl (fun a c => a * 10 + (c.toNat - 48)) 0)

/-- `parseInt(s, 10)`: skip leading whitespace, optional sign, then a maximal
digit run; `none` models `NaN`. -/
def jsParseInt (s : Str) : Option Int :=
  let t := s.dropWhile isJsSpace
  match t with
  | [] => none
  | c :: rest =>
    if c = '-' then (digitsVal rest).map (fun n => -(n : Int))
    else if c = '+' then (digitsVal rest).map (fun n => (n : Int))
    else (digitsVal t).map (fun n => (n : Int))

/-- Decimal rendering of a natural number (JS template interpolation). -/
def natToStr (n : Nat) : Str :=
  Nat.toDigits 10 n

/-- Decimal rendering of an integer. -/
def intToStr (i : Int) : Str :=
  if i < 0 then '-' :: natToStr i.natAbs else natToStr i.natAbs

-- ══════════════════════════════════════════════════════════════════════
-- Resolution client (client/node/src/resolution/client.ts)
-- ══════════════════════════════════════════════════════════════════════

structure ResolveInput where
  cap : Str
  ver : Option Str
  ctx : Option ResolutionContext
deriving DecidableEq, Repr

/-- Dependencies of the resolution client that the `resolve` path reads
(the remote call itself is modelled as an oracle argument of `resolveStep`). -/
structure ResolutionClientDeps where
  fallbackMappings : Option (List (Str × Str))
  defaultNatsUrl : Option Str
deriving DecidableEq, Repr

/-- Errors surfaced by `resolve`: a cached-negative `NOT_FOUND`
(`ResolutionError`), or the propagated remote-call error. -/
inductive ResolveErr (ε : Type) where
  | cachedNotFound
  | remote (e : ε)
deriving DecidableEq, Repr

/-- `ResolutionClient.buildFallbackResult`: `major` is
`parseInt(lastSegment.replace("v", ""), 10) || 1` — the *first* `"v"` is
removed and `NaN`/`0` fall back to `1`. -/
def removeFirstV : Str → Str
  | [] => []
  | c :: rest => if c = 'v' then rest else c :: removeFirstV rest

def buildFallbackResult (deps : ResolutionClientDeps) (cap subject : Str) :
    ResolveOutput :=
  let defaultNatsUrl := deps.defaultNatsUrl.getD "nats://127.0.0.1:4222".data
  let parts := subject.splitOn '.'
  let majorStr := parts.getLastD []
  let major : Int :=
    match jsParseInt (removeFirstV majorStr) with
    | none => 1
    | some v => if v = 0 then 1 else v
  { canonicalIdentity :=
      "cap:@main/".data ++ cap ++ "@".data ++ intToStr major ++ ".0.0".data
    natsUrl := defaultNatsUrl
    subject := subject
    major := major
    resolvedVersion := intToStr major ++ ".0.0".data
    status := "active".data
    ttlSeconds := 60
    etag := "fallback".data }

/-- Outcome of one `ResolutionClient.resolveFromRegistryWithCache` call:
the returned value or thrown error, the cache afterwards, whether the
foreground registry call was made, and whether a fire-and-forget
background revalidation was scheduled. -/
structure ResolveStepResult (ε : Type) where
  result : Except (ResolveErr ε) ResolveOutput
  cache : ResCacheMap
  remoteCalled : Bool
  revalidationScheduled : Bool
deriving Repr

/-- `ResolutionClient.resolveFromRegistryWithCache` for one call.  The in-flight
dedup map is empty between sequential calls, so `dedup.getOrCreate` invokes the
factory (the registry call, whose settled outcome is the oracle `registry`). -/
def resolveStep {ε : Type} (deps : ResolutionClientDeps) (cfg : ResolutionCacheConfig)
    (m : ResCacheMap) (input : ResolveInput) (now : Int)
    (registry : Except ε ResolveOutput) : ResolveStepResult ε :=
  let cacheParams : ResCacheParams := ⟨input.cap, input.ver, input.ctx⟩
  let (cached, m1) := resCacheGet cfg m cacheParams now
  if cached.found ∧ ¬cached.isStale then
    if cached.isNegative then ⟨.error .cachedNotFound, m1, false, false⟩
    else ⟨.ok cached.value.get!, m1, false, false⟩
  else if cached.found ∧ cached.isStale ∧ ¬cached.isNegative then
    -- stale value returned immediately; revalidation is fire-and-forget
    ⟨.ok cached.value.get!, m1, false, true⟩
  else
    match registry with
    | .ok result => ⟨.ok result, resCacheSet cfg m1 cacheParams result none now, true, false⟩
    | .error e =>
      match deps.fallbackMappings with
      | some fm =>
        match (jmGet input.cap fm).filter (· ≠ []) with
        | some fallbackSubject =>
          ⟨.ok (buildFallbackResult deps input.cap fallbackSubject), m1, true, false⟩
        | none => ⟨.error (.remote e), resCacheSetNegative cfg m1 cacheParams now, true, false⟩
      | none => ⟨.error (.remote e), resCacheSetNegative cfg m1 cacheParams now, true, false⟩

-- ══════════════════════════════════════════════════════════════════════
-- Bootstrap seeding (CapabilityClient.fetchRemoteBootstrap)
-- ══════════════════════════════════════════════════════════════════════

/-- The resolve-shaped raw JSON of one bootstrap `capabilities` entry (each
field may be absent). -/
structure BootstrapCapData where
  canonicalIdentity : Option Str
  subject : Option Str
  natsUrl : Option Str
  major : Option Int
  resolvedVersion : Option Str
  status : Option Str
  ttlSeconds : Option Int
  etag : Option Str
deriving DecidableEq, Repr

/-- The `ResolveOutput` value seeded for a valid bootstrap entry (requires
`canonicalIdentity` and `subject` to be present). -/
def bootstrapValue (defaultNats : Str) (ci subj : Str) (cap : BootstrapCapData) :
    ResolveOutput :=
  { canonicalIdentity := ci
    natsUrl := cap.natsUrl.getD defaultNats
    subject := subj
    major := cap.major.getD 1
    resolvedVersion := cap.resolvedVersion.getD "1.0.0".data
    status := cap.status.getD "active".data
    ttlSeconds := cap.ttlSeconds.getD 0
    etag := cap.etag.getD "bootstrap".data }

/-- `CapabilityClient.fetchRemoteBootstrap`, seeding loop: every entry with a
string `canonicalIdentity` and `subject` is stored under the bare `capRef` key
(no `ver`, no `ctx`) with `ttlMs = Number.POSITIVE_INFINITY`. -/
def seedBootstrap (cfg : ResolutionCacheConfig) (defaultNats : Str)
    (entries : List (Str × BootstrapCapData)) (m : ResCacheMap) (now : Int) :
    ResCacheMap :=
  entries.foldl
    (fun acc e =>
      match e.2.canonicalIdentity, e.2.subject with
      | some ci, some subj =>
        resCacheSet cfg acc ⟨e.1, none, none⟩ (bootstrapValue defaultNats ci subj e.2)
          (some JNum.inf) now
      | _, _ => acc)
    m

-- ══════════════════════════════════════════════════════════════════════
-- Basic lemmas about the JS map and number models
-- ══════════════════════════════════════════════════════════════════════

@[simp]
theorem JNum.add_fin_fin (a b : Int) : JNum.add (JNum.fin a) (JNum.fin b) = JNum.fin (a + b) := rfl

@[simp]
theorem JNum.add_fin_inf (a : Int) : JNum.add (JNum.fin a) JNum.inf = JNum.inf := rfl

@[simp]
theorem JNum.ltb_fin_fin (a b : Int) : JNum.ltb (JNum.fin a) (JNum.fin b) = decide (a < b) := rfl

@[simp]
theorem JNum.ltb_inf (a : JNum) : JNum.ltb JNum.inf a = false := rfl

@[simp]
theorem JNum.leb_fin_fin (a b : Int) : JNum.leb (JNum.fin a) (JNum.fin b) = decide (a ≤ b) := rfl

@[simp]
theorem JNum.leb_fin_inf (a : Int) : JNum.leb (JNum.fin a) JNum.inf = true := rfl

@[simp]
theorem JNum.truthy_fin (a : Int) : JNum.truthy (JNum.fin a) = decide (a ≠ 0) := by
  simp [JNum.truthy]

@[simp]
theorem JNum.truthy_inf : JNum.truthy JNum.inf = true := rfl

@[simp]
theorem jmGet_jmSet_self {V : Type} (k : Str) (v : V) (m : JMap V) :
    jmGet k (jmSet k v m) = some v := by
  induction m with
  | nil => simp [jmGet, jmSet]
  | cons kv rest ih =>
    by_cases h : kv.1 = k <;> simp [jmGet, jmSet, h, ih]

@[simp]
theorem jmGet_jmSet_ne {V : Type} (k k' : Str) (v : V) (m : JMap V) (h : k' ≠ k) :
    jmGet k (jmSet k' v m) = jmGet k m := by
  induction m with
  | nil => simp [jmGet, jmSet, h]
  | cons kv rest ih =>
    by_cases hk : kv.1 = k'
    · simp [jmGet, jmSet, hk, h]
    · simp only [jmSet, hk, if_false]
      by_cases hk2 : kv.1 = k <;> simp [jmGet, hk2, ih]

@[simp]
theorem jmGet_jmDelete_self {V : Type} (k : Str) (m : JMap V) :
    jmGet k (jmDelete k m) = none := by
  induction m with
  | nil => simp [jmGet, jmDelete]
  | cons kv rest ih =>
    by_cases h : kv.1 = k <;> simp_all [jmGet, jmDelete, List.filter]

@[simp]
theorem jmGet_jmDelete_ne {V : Type} (k k' : Str) (m : JMap V) (h : k' ≠ k) :
    jmGet k (jmDelete k' m) = jmGet k m := by
  induction m with
  | nil => simp [jmGet, jmDelete]
  | cons kv rest ih =>
    by_cases hk : kv.1 = k'
    · subst hk; simp_all [jmGet, jmDelete, List.filter, Ne.symm h]
    · by_cases hk2 : kv.1 = k <;> simp_all [jmGet, jmDelete, List.filter]

-- ══════════════════════════════════════════════════════════════════════
-- C2: TTL cache entry lifecycle
-- ══════════════════════════════════════════════════════════════════════

/-- **C2.**  For every key written with finite TTL `t` at time `t0`
(non-negative write): the stored entry has `expiresAt = t0 + t` and
`staleAt = expiresAt + staleWindowMs` exactly when stale-while-revalidate is
enabled (unset otherwise); `get` serves it found-and-fresh while
`now ≤ expiresAt`; serves it with `isStale = true` while
`expiresAt < now ≤ staleAt` when stale-while-revalidate is enabled; and once
`now > staleAt` (or immediately past `expiresAt` when stale-while-revalidate
is disabled) `get` deletes the entry and reports not-found. -/
theorem ttl_cache_entry_lifecycle {T : Type} (cfg : TTLCacheConfig)
    (m : JMap (CacheEntry T)) (key : Str) (v : T) (e : Option Str)
    (t t0 : Int) (h0 : 0 ≤ t0) (ht : 0 ≤ t) (hsw : 0 ≤ cfg.staleWindowMs)
    (m' : JMap (CacheEntry T))
    (hm' : m' = ttlSet cfg m key (some v) (some (JNum.fin t)) false e t0) :
    (jmGet key m' = some
      ⟨some v, JNum.fin (t0 + t),
        (if cfg.staleWhileRevalidate then some (JNum.fin (t0 + t + cfg.staleWindowMs))
         else none), false, e⟩) ∧
    (∀ now : Int, now ≤ t0 + t →
      ttlGet cfg m' key now = (⟨some v, true, false, false⟩, m')) ∧
    (∀ now : Int, cfg.staleWhileRevalidate = true → t0 + t < now →
      now ≤ t0 + t + cfg.staleWindowMs →
      ttlGet cfg m' key now = (⟨some v, true, true, false⟩, m')) ∧
    (∀ now : Int,
      (t0 + t + cfg.staleWindowMs < now ∨
        (cfg.staleWhileRevalidate = false ∧ t0 + t < now)) →
      (ttlGet cfg m' key now).1 = ⟨none, false, false, false⟩ ∧
        jmGet key (ttlGet cfg m' key now).2 = none) := by
  have hEntry : jmGet key m' = some
      ⟨some v, JNum.fin (t0 + t),
        (if cfg.staleWhileRevalidate then some (JNum.fin (t0 + t + cfg.staleWindowMs))
         else none), false, e⟩ := by
    subst hm'
    simp only [ttlSet, Option.getD]
    rw [jmGet_jmSet_self]
    simp
  refine ⟨hEntry, ?_, ?_, ?_⟩
  · intro now hnow
    have hlt : ¬ ((t0 + t : Int) < now) := by omega
    simp [ttlGet, hEntry, hlt]
  · intro now hswr h1 h2
    have hne : (t0 + t + cfg.staleWindowMs : Int) ≠ 0 := by omega
    simp [ttlGet, hEntry, hswr, h1, h2, hne]
  · intro now hcase
    rcases hcase with h | ⟨hswr, h1⟩
    · have h1 : (t0 + t : Int) < now := by omega
      have h2 : ¬ (now ≤ t0 + t + cfg.staleWindowMs) := by omega
      rcases hsw2 : cfg.staleWhileRevalidate with _ | _
      · simp [ttlGet, hEntry, hsw2, h1]
      · simp [ttlGet, hEntry, hsw2, h1, h2]
    · simp [ttlGet, hEntry, hswr, h1]

/-- Closed witness for `ttl_cache_entry_lifecycle` at a concrete configuration
and timeline. -/
theorem ttl_cache_entry_lifecycle_witness :
    ttlGet ⟨1000, 30, true, 5000, none⟩
      (ttlSet ⟨1000, 30, true, 5000, none⟩ ([] : JMap (CacheEntry Nat)) "k".data
        (some 7) (some (JNum.fin 1000)) false none 10) "k".data 900 =
      (⟨some 7, true, false, false⟩,
        ttlSet ⟨1000, 30, true, 5000, none⟩ [] "k".data (some 7)
          (some (JNum.fin 1000)) false none 10) ∧
    (ttlGet ⟨1000, 30, true, 5000, none⟩
      (ttlSet ⟨1000, 30, true, 5000, none⟩ ([] : JMap (CacheEntry Nat)) "k".data
        (some 7) (some (JNum.fin 1000)) false none 10) "k".data 99999).1 =
      ⟨none, false, false, false⟩ := by
  have h := ttl_cache_entry_lifecycle ⟨1000, 30, true, 5000, none⟩ []
    "k".data 7 none 1000 10 (by decide) (by decide) (by decide) _ rfl
  exact ⟨h.2.1 900 (by decide), (h.2.2.2 99999 (Or.inl (by decide))).1⟩

-- ══════════════════════════════════════════════════════════════════════
-- Identity: parse / normalize / canonicalize (capability identity module)
-- ══════════════════════════════════════════════════════════════════════

/-- `[a-zA-Z]`. -/
def isAlphaEn (c : Char) : Bool :=
  ('a' ≤ c && c ≤ 'z') || ('A' ≤ c && c ≤ 'Z')

/-- Character class of `ALIAS_RE` after the first character: `[a-zA-Z0-9_-]`. -/
def aliasCharOk (c : Char) : Bool :=
  isAlphaEn c || c.isDigit || c = '_' || c = '-'

/-- Character class of `APP_CAP_RE` after the first character: `[a-zA-Z0-9._-]`. -/
def appCapCharOk (c : Char) : Bool :=
  isAlphaEn c || c.isDigit || c = '.' || c = '_' || c = '-'

/-- `ALIAS_RE = /^[a-zA-Z][a-zA-Z0-9_-]*$/`. -/
def ALIAS_RE (s : Str) : Bool :=
  match s with
  | [] => false
  | c :: rest => isAlphaEn c && rest.all aliasCharOk

/-- `APP_CAP_RE = /^[a-zA-Z][a-zA-Z0-9._-]*$/`. -/
def APP_CAP_RE (s : Str) : Bool :=
  match s with
  | [] => false
  | c :: rest => isAlphaEn c && rest.all appCapCharOk

/-- `ILLEGAL_CHARS_RE = /[#?\s\0]/` applied to one character. -/
def illegalChar (c : Char) : Bool :=
  c = '#' || c = '?' || isJsSpace c || c = '\x00'

def hasIllegalChars (s : Str) : Bool :=
  s.any illegalChar

/-- JS `String.prototype.trim`. -/
def jsTrim (s : Str) : Str :=
  ((s.dropWhile isJsSpace).reverse.dropWhile isJsSpace).reverse

/-- Split at the first occurrence of `c` (`indexOf` + two slices); `none` when
`c` does not occur. -/
def splitFirst (c : Char) : Str → Option (Str × Str)
  | [] => none
  | x :: rest =>
    if x = c then some ([], rest)
    else
      match splitFirst c rest with
      | some (before, after) => some (x :: before, after)
      | none => none

/-- Split at the last occurrence of `c` (`lastIndexOf` + two slices). -/
def splitLast (c : Char) (s : Str) : Option (Str × Str) :=
  match splitFirst c s.reverse with
  | some (sufRev, preRev) => some (preRev.reverse, sufRev.reverse)
  | none => none

/-- `[a-zA-Z0-9._-]`, the prerelease/build character class. -/
def versionCharOk (c : Char) : Bool :=
  c.isAlphanum || c = '.' || c = '_' || c = '-'

/-- Consume a non-empty run of decimal digits (`\d+`), returning the rest. -/
def eatDigits (s : Str) : Option Str :=
  if s.takeWhile Char.isDigit = [] then none else some (s.dropWhile Char.isDigit)

/-- The `(-[a-zA-Z0-9._-]+)?(\+[a-zA-Z0-9._-]+)?$` tail of `VERSION_FULL_RE`
(the classes contain no `+`, so matching is deterministic). -/
def versionTail (s : Str) : Bool :=
  match s with
  | [] => true
  | c :: rest =>
    if c = '-' then
      let p := rest.takeWhile versionCharOk
      let r := rest.dropWhile versionCharOk
      p ≠ [] &&
        (match r with
         | [] => true
         | c2 :: b => c2 = '+' && b ≠ [] && b.all versionCharOk)
    else if c = '+' then rest ≠ [] && rest.all versionCharOk
    else false

/-- `VERSION_FULL_RE = /^\d+\.\d+\.\d+(-[a-zA-Z0-9._-]+)?(\+[a-zA-Z0-9._-]+)?$/`. -/
def versionFull (s : Str) : Bool :=
  match eatDigits s with
  | none => false
  | some r1 =>
    match r1 with
    | [] => false
    | c1 :: r2 =>
      if c1 = '.' then
        match eatDigits r2 with
        | none => false
        | some r3 =>
          match r3 with
          | [] => false
          | c2 :: r4 =>
            if c2 = '.' then
              match eatDigits r4 with
              | some r5 => versionTail r5
              | none => false
            else false
      else false

/-- `VERSION_SHORT_RE = /^\d+\.\d+$/`. -/
def versionShort (s : Str) : Bool :=
  match eatDigits s with
  | none => false
  | some r1 =>
    match r1 with
    | [] => false
    | c1 :: r2 =>
      if c1 = '.' then
        match eatDigits r2 with
        | some [] => true
        | _ => false
      else false

/-- `VERSION_MAJOR_RE = /^\d+$/`. -/
def versionMajor (s : Str) : Bool :=
  s ≠ [] && s.all Char.isDigit

/-- `normalizeVersion`: strip a leading `v` before a digit
(`VERSION_STRIP_V_RE = /^v(\d.*)$/`), pad missing minor/patch; `none` models
the thrown `IdentityError`. -/
def normalizeVersion (input : Str) : Option Str :=
  let v0 := jsTrim input
  let v :=
    match v0 with
    | c :: d :: rest => if c = 'v' ∧ d.isDigit then d :: rest else v0
    | _ => v0
  if versionFull v then some v
  else if versionShort v then some (v ++ ".0".data)
  else if versionMajor v then some (v ++ ".0.0".data)
  else none

structure ParsedReference where
  /-- The source field is named `alias` (a reserved word in Lean). -/
  aliasName : Option Str
  app : Str
  cap : Str
  version : Option Str
  raw : Str
deriving DecidableEq, Repr

/-- Alias-extraction step of `parseReference` (`@alias/` at the start,
lowercased and validated). -/
def parseAlias (working : Str) : Option (Option Str × Str) :=
  if working.head? = some '@' then
    match splitFirst '/' working with
    | none => none
    | some (upToSlash, afterSlash) =>
      if (upToSlash.drop 1).map Char.toLower = [] then none
      else if ALIAS_RE ((upToSlash.drop 1).map Char.toLower) = false then none
      else some (some ((upToSlash.drop 1).map Char.toLower), afterSlash)
  else some (none, working)

/-- Version-extraction step of `parseReference` (split at the last `@`). -/
def parseCapVersion (capAndVersion : Str) : Option (Str × Option Str) :=
  match splitLast '@' capAndVersion with
  | some (c, ver) => if ver = [] then none else some (c, some ver)
  | none => some (capAndVersion, none)

/-- `parseReference`; `none` models a thrown `IdentityError`. -/
def parseReference (input : Str) : Option ParsedReference :=
  let raw := jsTrim input
  if raw = [] then none
  else if hasIllegalChars raw then none
  else
    let working := if "cap:".data.isPrefixOf raw then raw.drop 4 else raw
    match parseAlias working with
    | none => none
    | some (al, w2) =>
      match splitFirst '/' w2 with
      | none => none
      | some (app, capAndVersion) =>
        if app = [] then none
        else if APP_CAP_RE app = false then none
        else
          match parseCapVersion capAndVersion with
          | none => none
          | some (cap, version) =>
            if cap = [] then none
            else if APP_CAP_RE cap = false then none
            else some ⟨al, app, cap, version, raw⟩

structure CanonicalizeOptions where
  defaultAlias : Option Str
  resolvedVersion : Option Str
deriving DecidableEq, Repr

/-- `canonicalize` on an already-parsed reference; `none` models the thrown
`IdentityError` (from `normalizeVersion`, or from a missing version). -/
def canonicalize (parsed : ParsedReference) (options : Option CanonicalizeOptions) :
    Option Str :=
  let al := (parsed.aliasName.getD ((options.bind (·.defaultAlias)).getD "main".data)).map
    Char.toLower
  let version : Option Str :=
    if strTruthy parsed.version then normalizeVersion (parsed.version.getD [])
    else if strTruthy (options.bind (·.resolvedVersion)) then
      normalizeVersion ((options.bind (·.resolvedVersion)).getD [])
    else none
  match version with
  | none => none
  | some v =>
    some ("cap:@".data ++ al ++ "/".data ++ parsed.app ++ "/".data ++
      parsed.cap ++ "@".data ++ v)

-- ══════════════════════════════════════════════════════════════════════
-- C10: invalidateCapability deletes exactly the "<app>.<name>"-keyed
-- entries and never touches canonical-identity keys
-- ══════════════════════════════════════════════════════════════════════

theorem jmGet_filter {V : Type} (k : Str) (p : Str → Bool) (m : JMap V) :
    jmGet k (m.filter (fun kv => p kv.1)) =
      (if p k then jmGet k m else none) := by
  induction m with
  | nil => simp [jmGet]
  | cons kv rest ih =>
    by_cases hk : kv.1 = k
    · subst hk
      by_cases hp : p kv.1 <;> simp [jmGet, List.filter, hp, ih]
    · by_cases hp : p kv.1 <;> simp [jmGet, List.filter, hp, hk, ih]

/-- **C10.**  `invalidateCapability(app, name)` removes exactly the entries
whose key starts with the literal string `app + "." + name`; and for every
`app` and `name` admitted by the reference grammar (`APP_CAP_RE`), that
string is never a prefix of a key that begins with `"cap:@"` — so every
entry keyed by a canonical identity survives. -/
theorem invalidate_capability_exact_and_frame :
    (∀ (m : ResCacheMap) (app name key : Str),
      jmGet key (resCacheInvalidateCapability m app name).1 =
        (if (app ++ ".".data ++ name).isPrefixOf key then none else jmGet key m)) ∧
    (∀ app name rest : Str, APP_CAP_RE app = true →
      (app ++ ".".data ++ name).isPrefixOf ("cap:@".data ++ rest) = false) := by
  constructor
  · intro m app name key
    simp only [resCacheInvalidateCapability, ttlInvalidateMatching]
    rw [jmGet_filter key (fun s => !(app ++ ".".data ++ name).isPrefixOf s) m]
    by_cases hp : (app ++ '.' :: name) <+: key <;>
      simp [hp, List.isPrefixOf_iff_prefix]
  · intro app name rest happ
    by_contra hne
    rw [Bool.not_eq_false] at hne
    have hcap : ("cap:@".data : Str) = 'c' :: 'a' :: 'p' :: ':' :: '@' :: [] := rfl
    have hdot : (".".data : Str) = ['.'] := rfl
    rw [hcap, hdot] at hne
    have hpfx := List.isPrefixOf_iff_prefix.mp hne
    obtain ⟨t, ht⟩ := hpfx
    rcases app with _ | ⟨c0, _ | ⟨c1, _ | ⟨c2, _ | ⟨c3, app4⟩⟩⟩⟩
    · simp [APP_CAP_RE] at happ
    · simp at ht
    · simp at ht
    · simp at ht
    · simp at ht
      obtain ⟨-, -, -, h1, -⟩ := ht
      subst h1
      simp [APP_CAP_RE, appCapCharOk, isAlphaEn] at happ

/-- Closed witness for `invalidate_capability_exact_and_frame`: invalidating
`("my.app", "image")` removes the `"my.app.image…"` key, keeps an unrelated
key, and `"my.app.image"` is not a prefix of a `"cap:@"` canonical key. -/
theorem invalidate_capability_exact_and_frame_witness :
    jmGet "cap:@main/my.app/image@1.0.0".data
        (resCacheInvalidateCapability
          [("my.app.image|t:acme".data, ⟨none, JNum.inf, none, false, none⟩),
           ("cap:@main/my.app/image@1.0.0".data, ⟨none, JNum.inf, none, false, none⟩)]
          "my.app".data "image".data).1 =
      some ⟨none, JNum.inf, none, false, none⟩ ∧
    jmGet "my.app.image|t:acme".data
        (resCacheInvalidateCapability
          [("my.app.image|t:acme".data, ⟨none, JNum.inf, none, false, none⟩),
           ("cap:@main/my.app/image@1.0.0".data, ⟨none, JNum.inf, none, false, none⟩)]
          "my.app".data "image".data).1 = none ∧
    ("my.app".data ++ ".".data ++ "image".data).isPrefixOf
      ("cap:@".data ++ "main/my.app/image@1.0.0".data) = false := by
  have h := invalidate_capability_exact_and_frame
  refine ⟨?_, ?_, h.2 "my.app".data "image".data "main/my.app/image@1.0.0".data (by decide)⟩
  · rw [h.1]
    decide
  · rw [h.1]
    decide

-- ══════════════════════════════════════════════════════════════════════
-- C1: bootstrap-seeded entries vs. the resolution cache key
-- ══════════════════════════════════════════════════════════════════════

theorem intercalate_singleton (sep x : Str) : List.intercalate sep [x] = x := by
  simp [List.intercalate]

theorem intercalate_pair (sep a b : Str) :
    List.intercalate sep [a, b] = a ++ sep ++ b := by
  simp [List.intercalate, List.intersperse]

/-- The key built with no `ver`, no `canonicalIdentity` and no context is the
bare capability reference. -/
theorem resCacheKey_no_ctx (cfg : ResolutionCacheConfig) (cap : Str) :
    resCacheKey cfg ⟨cap, none, none⟩ = cap := by
  simp [resCacheKey, buildKey, strTruthy, intercalate_singleton]

/-- With `includeTenantInKey` set and a non-empty tenant, the key gains a
`|t:<tenantId>` part. -/
theorem resCacheKey_tenant (cfg : ResolutionCacheConfig) (cap tenant : Str)
    (hinc : cfg.includeTenantInKey = true) (ht : tenant ≠ []) :
    resCacheKey cfg ⟨cap, none, some ⟨some tenant, none⟩⟩ =
      cap ++ "|".data ++ ("t:".data ++ tenant) := by
  simp [resCacheKey, buildKey, strTruthy, hinc, ht, intercalate_pair]

/-- **C1 (counterexample).**  The claim fails: a capability seeded from the
bootstrap reply (`system.registry`, stored under the bare-`capRef` key with
no context parts) is *not* served from the cache when the resolve carries a
resolution context with a `tenantId` (as every pipeline resolve does): the
key builder appends `|t:<tenantId>`, the lookup misses, and the registry
remote call *is* made. -/
theorem bootstrap_tenant_resolve_counterexample :
    (resolveStep (ε := Unit) ⟨none, none⟩ defaultResolutionCacheConfig
      (seedBootstrap defaultResolutionCacheConfig "nats://127.0.0.1:4222".data
        [("system.registry".data,
          ⟨some "cap:@main/system/registry@1.0.0".data,
           some "cap.system.registry.v1".data, none, some 1, some "1.0.0".data,
           some "active".data, some 0, some "bs".data⟩)] [] 100)
      ⟨"system.registry".data, none, some ⟨some "default".data, none⟩⟩ 200
      (.ok default)).remoteCalled = true := by
  decide

/-- **C1 (amended).**  A bootstrap-seeded capability is stored with an
infinite TTL under the bare `capRef` key, so a direct resolve *without a
context* (and without a version) is served from the cache at any later time,
with no registry remote call and no cache change; but a resolve whose context
carries a non-empty `tenantId` (the pipeline case) builds a different key
when `includeTenantInKey` is set and therefore issues the remote call. -/
theorem bootstrap_seed_resolution {ε : Type} (cfg : ResolutionCacheConfig)
    (defaultNats capRef : Str) (data : BootstrapCapData) (ci subj : Str)
    (t0 : Int) (hci : data.canonicalIdentity = some ci)
    (hsubj : data.subject = some subj)
    (m : ResCacheMap)
    (hm : m = seedBootstrap cfg defaultNats [(capRef, data)] [] t0) :
    (∃ e, jmGet capRef m = some e ∧ e.expiresAt = JNum.inf ∧
      e.value = some (bootstrapValue defaultNats ci subj data)) ∧
    (∀ (now : Int) (registry : Except ε ResolveOutput),
      resolveStep ⟨none, none⟩ cfg m ⟨capRef, none, none⟩ now registry =
        ⟨.ok (bootstrapValue defaultNats ci subj data), m, false, false⟩) ∧
    (∀ (now : Int) (tenant : Str) (e : ε), cfg.includeTenantInKey = true →
      tenant ≠ [] →
      (resolveStep ⟨none, none⟩ cfg m
        ⟨capRef, none, some ⟨some tenant, none⟩⟩ now (.error e)).remoteCalled =
        true) := by
  have hkey : resCacheKey cfg ⟨capRef, none, none⟩ = capRef :=
    resCacheKey_no_ctx cfg capRef
  have hmap : m = [(capRef,
      ⟨some (bootstrapValue defaultNats ci subj data), JNum.inf,
        (if cfg.ttl.staleWhileRevalidate then some JNum.inf else none), false,
        some (bootstrapValue defaultNats ci subj data).etag⟩)] := by
    subst hm
    simp only [seedBootstrap, List.foldl, hci, hsubj]
    rcases hmx : cfg.ttl.maxEntries with _ | mx <;>
      simp [resCacheSet, ttlSet, hkey, JNum.add, jmSet, hmx]
  constructor
  · exact ⟨⟨some (bootstrapValue defaultNats ci subj data), JNum.inf,
      (if cfg.ttl.staleWhileRevalidate then some JNum.inf else none), false,
      some (bootstrapValue defaultNats ci subj data).etag⟩,
      by rw [hmap]; simp [jmGet], rfl, rfl⟩
  constructor
  · intro now registry
    simp [resolveStep, resCacheGet, ttlGet, hkey, hmap, jmGet, JNum.ltb]
  · intro now tenant e hinc ht
    have hkey2 := resCacheKey_tenant cfg capRef tenant hinc ht
    have hne : resCacheKey cfg ⟨capRef, none, some ⟨some tenant, none⟩⟩ ≠ capRef := by
      rw [hkey2]
      intro h
      have := congrArg List.length h
      simp at this
    simp [resolveStep, resCacheGet, ttlGet, hmap, jmGet, Ne.symm hne]

/-- Closed witness for `bootstrap_seed_resolution`. -/
theorem bootstrap_seed_resolution_witness :
    (resolveStep (ε := Unit) ⟨none, none⟩ defaultResolutionCacheConfig
      (seedBootstrap defaultResolutionCacheConfig "nats://127.0.0.1:4222".data
        [("system.registry".data,
          ⟨some "cap:@main/system/registry@1.0.0".data,
           some "cap.system.registry.v1".data, none, some 1, some "1.0.0".data,
           some "active".data, some 0, some "bs".data⟩)] [] 100)
      ⟨"system.registry".data, none, none⟩ 999999999 (.error ())).remoteCalled =
      false ∧
    (resolveStep (ε := Unit) ⟨none, none⟩ defaultResolutionCacheConfig
      (seedBootstrap defaultResolutionCacheConfig "nats://127.0.0.1:4222".data
        [("system.registry".data,
          ⟨some "cap:@main/system/registry@1.0.0".data,
           some "cap.system.registry.v1".data, none, some 1, some "1.0.0".data,
           some "active".data, some 0, some "bs".data⟩)] [] 100)
      ⟨"system.registry".data, none, some ⟨some "default".data, none⟩⟩ 200
      (.error ())).remoteCalled = true := by
  have h := bootstrap_seed_resolution (ε := Unit) defaultResolutionCacheConfig
    "nats://127.0.0.1:4222".data "system.registry".data
    ⟨some "cap:@main/system/registry@1.0.0".data,
     some "cap.system.registry.v1".data, none, some 1, some "1.0.0".data,
     some "active".data, some 0, some "bs".data⟩
    "cap:@main/system/registry@1.0.0".data "cap.system.registry.v1".data
    100 rfl rfl _ rfl
  constructor
  · rw [h.2.1 999999999 (.error ())]
  · exact h.2.2 200 "default".data () rfl (by decide)

-- ══════════════════════════════════════════════════════════════════════
-- C4: registry-failure fallback synthesis and negative caching
-- ══════════════════════════════════════════════════════════════════════

theorem digit_not_space_or_sign (d : Char) (h : d.isDigit = true) :
    isJsSpace d = false ∧ d ≠ '-' ∧ d ≠ '+' := by
  refine ⟨?_, ?_, ?_⟩
  · by_contra h2
    rw [Bool.not_eq_false] at h2
    have h3 : d ∈ jsSpaceChars := by
      simpa [isJsSpace] using h2
    fin_cases h3 <;> exact absurd h (by decide)
  · intro hEq
    subst hEq
    exact absurd h (by decide)
  · intro hEq
    subst hEq
    exact absurd h (by decide)

/-- `parseInt` on a non-empty all-digit string is its digit value. -/
theorem jsParseInt_digits (ds : Str) (hne : ds ≠ []) (hd : ds.all Char.isDigit = true) :
    jsParseInt ds = (digitsVal ds).map (fun n => (n : Int)) := by
  rcases ds with _ | ⟨d, rest⟩
  · exact absurd rfl hne
  · have hdd : d.isDigit = true := by
      simp only [List.all_cons, Bool.and_eq_true] at hd
      exact hd.1
    obtain ⟨hs, hm, hp⟩ := digit_not_space_or_sign d hdd
    simp [jsParseInt, List.dropWhile_cons, hs, hm, hp]

deriving instance DecidableEq for Except

/-- The claim's description of the synthesized fallback `major`: the last
dot-separated segment of the subject with a *leading* `v` stripped, parsed as
an integer. -/
def claimedFallbackMajor (subject : Str) : Option Int :=
  let majorStr := (subject.splitOn '.').getLastD []
  jsParseInt
    (match majorStr with
     | 'v' :: rest => rest
     | s => s)

/-- **C4 (counterexample).**  For fallback subject `"cap.unknown.v0"` the
claimed parse (leading `v` stripped) yields major `0`, but the code computes
`parseInt(...) || 1` and returns major `1` (with `resolvedVersion "1.0.0"`),
so the claim's description of the synthesized output is false. -/
theorem resolve_fallback_major_counterexample :
    (resolveStep (ε := Unit)
        ⟨some [("unknown.cap".data, "cap.unknown.v0".data)], none⟩
        defaultResolutionCacheConfig [] ⟨"unknown.cap".data, none, none⟩ 0
        (.error ())).result =
      .ok (buildFallbackResult
            ⟨some [("unknown.cap".data, "cap.unknown.v0".data)], none⟩
            "unknown.cap".data "cap.unknown.v0".data) ∧
    (buildFallbackResult
        ⟨some [("unknown.cap".data, "cap.unknown.v0".data)], none⟩
        "unknown.cap".data "cap.unknown.v0".data).major = 1 ∧
    claimedFallbackMajor "cap.unknown.v0".data = some 0 ∧ (1 : Int) ≠ 0 := by
  decide

/-- **C4 (amended).**  When the registry call fails on a cache miss:
if `fallbackMappings[cap]` is a non-empty subject, `resolve` returns the
synthesized `ResolveOutput` (subject = mapped subject, default bus URL,
`ttlSeconds = 60`, etag `"fallback"`, canonical identity
`cap:@main/<cap>@<major>.0.0`, `resolvedVersion = <major>.0.0`) where `major`
is `parseInt` of the last subject segment with its first `v` removed,
defaulting to `1` when that yields `NaN` or `0` — in particular for a segment
`v<digits>` the digit value, with `0` replaced by `1`; with no fallback
mapping the key is marked negative and the error propagates, and a repeated
resolve at any `now' ≤ now + negativeTtlMs` fails with the cached `NOT_FOUND`
without a remote call. -/
theorem resolve_fallback_and_negative_caching {ε : Type}
    (deps : ResolutionClientDeps) (cfg : ResolutionCacheConfig)
    (m : ResCacheMap) (input : ResolveInput) (now : Int) (e : ε)
    (hmiss : (resCacheGet cfg m ⟨input.cap, input.ver, input.ctx⟩ now).1.found = false) :
    (∀ fm subj, deps.fallbackMappings = some fm → jmGet input.cap fm = some subj →
      subj ≠ [] →
      resolveStep deps cfg m input now (.error e) =
        ⟨.ok (buildFallbackResult deps input.cap subj),
         (resCacheGet cfg m ⟨input.cap, input.ver, input.ctx⟩ now).2, true, false⟩ ∧
      (buildFallbackResult deps input.cap subj).subject = subj ∧
      (buildFallbackResult deps input.cap subj).natsUrl =
        deps.defaultNatsUrl.getD "nats://127.0.0.1:4222".data ∧
      (buildFallbackResult deps input.cap subj).ttlSeconds = 60 ∧
      (buildFallbackResult deps input.cap subj).etag = "fallback".data ∧
      (buildFallbackResult deps input.cap subj).resolvedVersion =
        intToStr (buildFallbackResult deps input.cap subj).major ++ ".0.0".data ∧
      (buildFallbackResult deps input.cap subj).canonicalIdentity =
        "cap:@main/".data ++ input.cap ++ "@".data ++
          intToStr (buildFallbackResult deps input.cap subj).major ++ ".0.0".data ∧
      (∀ (ds : Str) (n : Nat), (subj.splitOn '.').getLastD [] = 'v' :: ds →
        ds ≠ [] → ds.all Char.isDigit = true → digitsVal ds = some n →
        (buildFallbackResult deps input.cap subj).major =
          (if n = 0 then 1 else (n : Int)))) ∧
    ((∀ fm, deps.fallbackMappings = some fm →
        (jmGet input.cap fm).filter (· ≠ []) = none) →
      resolveStep deps cfg m input now (.error e) =
        ⟨.error (.remote e),
         resCacheSetNegative cfg
           (resCacheGet cfg m ⟨input.cap, input.ver, input.ctx⟩ now).2
           ⟨input.cap, input.ver, input.ctx⟩ now, true, false⟩ ∧
      (∀ (now' : Int) (r2 : Except ε ResolveOutput),
        now' ≤ now + cfg.ttl.negativeTtlMs →
        (resolveStep deps cfg
            (resCacheSetNegative cfg
              (resCacheGet cfg m ⟨input.cap, input.ver, input.ctx⟩ now).2
              ⟨input.cap, input.ver, input.ctx⟩ now)
            input now' r2).result = .error .cachedNotFound ∧
        (resolveStep deps cfg
            (resCacheSetNegative cfg
              (resCacheGet cfg m ⟨input.cap, input.ver, input.ctx⟩ now).2
              ⟨input.cap, input.ver, input.ctx⟩ now)
            input now' r2).remoteCalled = false)) := by
  obtain ⟨res1, m1, hres⟩ :
      ∃ r m1, resCacheGet cfg m ⟨input.cap, input.ver, input.ctx⟩ now = (r, m1) :=
    ⟨_, _, rfl⟩
  rw [hres] at hmiss
  simp only at hmiss
  constructor
  · intro fm subj hfm hsubj hne
    refine ⟨?_, rfl, rfl, rfl, rfl, rfl, rfl, ?_⟩
    · simp [resolveStep, hres, hmiss, hfm, hsubj, Option.filter, hne]
    · intro ds n hlast hdne hdall hdv
      simp only [buildFallbackResult, hlast]
      rw [show removeFirstV ('v' :: ds) = ds from by simp [removeFirstV]]
      rw [jsParseInt_digits ds hdne hdall, hdv]
      by_cases hn : n = 0 <;> simp [hn]
  · intro hnofb
    have hstep : resolveStep deps cfg m input now (.error e) =
        ⟨.error (.remote e),
         resCacheSetNegative cfg m1 ⟨input.cap, input.ver, input.ctx⟩ now,
         true, false⟩ := by
      rcases hfb : deps.fallbackMappings with _ | fm
      · simp [resolveStep, hres, hmiss, hfb]
      · have h3 := hnofb fm hfb
        simp only [ne_eq, decide_not] at h3
        simp [resolveStep, hres, hmiss, hfb, h3]
    refine ⟨by rw [hstep, hres], ?_⟩
    intro now' r2 hnow'
    have hkeyget : jmGet (resCacheKey cfg ⟨input.cap, input.ver, input.ctx⟩)
        (resCacheSetNegative cfg m1 ⟨input.cap, input.ver, input.ctx⟩ now) =
        some ⟨none, JNum.fin (now + cfg.ttl.negativeTtlMs),
          (if cfg.ttl.staleWhileRevalidate then
            some (JNum.fin (now + cfg.ttl.negativeTtlMs + cfg.ttl.staleWindowMs))
           else none), true, none⟩ := by
      simp [resCacheSetNegative, ttlSetNegative, ttlSet]
    have hlt : ¬ ((now + cfg.ttl.negativeTtlMs : Int) < now') := by omega
    rw [hres]
    constructor <;>
      simp [resolveStep, resCacheGet, ttlGet, hkeyget, hlt]

/-- Closed witness for `resolve_fallback_and_negative_caching`: fallback
mapping `"u" → "cap.u.v2"` synthesizes major `2`; with no mapping the failure
is negatively cached and a repeat at `now + negativeTtlMs` is served the
cached `NOT_FOUND` without a remote call. -/
theorem resolve_fallback_and_negative_caching_witness :
    resolveStep (ε := Unit) ⟨some [("u".data, "cap.u.v2".data)], none⟩
        defaultResolutionCacheConfig [] ⟨"u".data, none, none⟩ 0 (.error ()) =
      ⟨.ok (buildFallbackResult ⟨some [("u".data, "cap.u.v2".data)], none⟩
        "u".data "cap.u.v2".data), [], true, false⟩ ∧
    (buildFallbackResult ⟨some [("u".data, "cap.u.v2".data)], none⟩
        "u".data "cap.u.v2".data).major = 2 ∧
    (resolveStep (ε := Unit) ⟨none, none⟩ defaultResolutionCacheConfig
        (resCacheSetNegative defaultResolutionCacheConfig []
          ⟨"u".data, none, none⟩ 0)
        ⟨"u".data, none, none⟩ 30000 (.error ())).result =
      .error .cachedNotFound ∧
    (resolveStep (ε := Unit) ⟨none, none⟩ defaultResolutionCacheConfig
        (resCacheSetNegative defaultResolutionCacheConfig []
          ⟨"u".data, none, none⟩ 0)
        ⟨"u".data, none, none⟩ 30000 (.error ())).remoteCalled = false := by
  have hA := resolve_fallback_and_negative_caching (ε := Unit)
    ⟨some [("u".data, "cap.u.v2".data)], none⟩ defaultResolutionCacheConfig
    [] ⟨"u".data, none, none⟩ 0 () (by decide)
  have hB := resolve_fallback_and_negative_caching (ε := Unit)
    ⟨none, none⟩ defaultResolutionCacheConfig
    [] ⟨"u".data, none, none⟩ 0 () (by decide)
  have hA1 := hA.1 [("u".data, "cap.u.v2".data)] "cap.u.v2".data rfl
    (by decide) (by decide)
  have hB1 := hB.2 (fun fm h => by simp at h)
  refine ⟨hA1.1.trans rfl, ?_, ?_, ?_⟩
  · exact (hA1.2.2.2.2.2.2.2 "2".data 2 (by decide) (by decide) (by decide)
      (by decide)).trans (by decide)
  · exact (hB1.2 30000 (.error ()) (by decide)).1
  · exact (hB1.2 30000 (.error ()) (by decide)).2

-- ══════════════════════════════════════════════════════════════════════
-- C3: in-flight deduplication (client/node/src/cache/dedup.ts)
-- ══════════════════════════════════════════════════════════════════════

/-- State of an `InFlightDedup` together with bookkeeping for the model:
`pending` is the `Map<string, Promise>`, with promises named by `Nat` ids;
`promiseKey` records the key captured by each promise's `.finally` closure;
`invocations` logs every factory invocation `(key, promise)`. -/
structure DedupState where
  pending : JMap Nat
  promiseKey : List (Nat × Str)
  nextId : Nat
  invocations : List (Str × Nat)
deriving DecidableEq, Repr

/-- Events of a dedup trace: a `getOrCreate(key, factory)` call, or the
settlement (fulfilment or rejection) of a promise, whose `.finally` removes
the pending entry at the captured key. -/
inductive DedupEvent where
  | call (key : Str)
  | settle (id : Nat)
deriving DecidableEq, Repr

def dedupInit : DedupState := ⟨[], [], 0, []⟩

def lookupId (id : Nat) : List (Nat × Str) → Option Str
  | [] => none
  | (i, k) :: rest => if i = id then some k else lookupId id rest

/-- `getOrCreate`: an existing pending promise is returned and the factory is
not invoked; otherwise the factory is invoked and its promise registered. -/
def dedupCall (st : DedupState) (key : Str) : DedupState × Nat :=
  match jmGet key st.pending with
  | some p => (st, p)
  | none =>
    let pid := st.nextId
    (⟨jmSet key pid st.pending, (pid, key) :: st.promiseKey, pid + 1,
      st.invocations ++ [(key, pid)]⟩, pid)

/-- Settlement of promise `id` (success or failure): its `.finally` deletes
the captured key from `pending`. -/
def dedupSettle (st : DedupState) (id : Nat) : DedupState :=
  match lookupId id st.promiseKey with
  | some k => { st with pending := jmDelete k st.pending }
  | none => st

/-- Run a trace, collecting the promise handed to each caller in order. -/
def dedupRun (st : DedupState) : List DedupEvent → DedupState × List (Str × Nat)
  | [] => (st, [])
  | .call k :: evs =>
    let out := dedupCall st k
    let rest := dedupRun out.1 evs
    (rest.1, (k, out.2) :: rest.2)
  | .settle id :: evs => dedupRun (dedupSettle st id) evs

theorem lookupId_mem (id : Nat) (l : List (Nat × Str)) (k : Str)
    (h : lookupId id l = some k) : (id, k) ∈ l := by
  induction l with
  | nil => simp [lookupId] at h
  | cons ik rest ih =>
    obtain ⟨i, k'⟩ := ik
    by_cases hi : i = id
    · subst hi
      simp [lookupId] at h
      subst h
      exact List.mem_cons_self _ _
    · simp [lookupId, hi] at h
      exact List.mem_cons_of_mem _ (ih h)

theorem dedupRun_append (st : DedupState) (evs1 evs2 : List DedupEvent) :
    dedupRun st (evs1 ++ evs2) =
      ((dedupRun (dedupRun st evs1).1 evs2).1,
        (dedupRun st evs1).2 ++ (dedupRun (dedupRun st evs1).1 evs2).2) := by
  induction evs1 generalizing st with
  | nil => simp [dedupRun]
  | cons ev evs ih =>
    cases ev with
    | call k => simp [dedupRun, ih]
    | settle id => simp [dedupRun, ih]

/-- Invariant of the window in which promise `0` for key `k` is in flight. -/
def DedupInv (k : Str) (st : DedupState) : Prop :=
  jmGet k st.pending = some 0 ∧
  lookupId 0 st.promiseKey = some k ∧
  (∀ i k', (i, k') ∈ st.promiseKey → k' = k → i = 0) ∧
  (st.invocations.filter (fun r => r.1 = k)).length = 1 ∧
  0 < st.nextId

theorem dedup_window (k : Str) (evs : List DedupEvent) :
    ∀ st : DedupState, DedupInv k st → DedupEvent.settle 0 ∉ evs →
      DedupInv k (dedupRun st evs).1 ∧
      ∀ r ∈ (dedupRun st evs).2, r.1 = k → r.2 = 0 := by
  induction evs with
  | nil =>
    intro st hInv _
    exact ⟨hInv, by simp [dedupRun]⟩
  | cons ev evs ih =>
    intro st hInv hns
    have hns' : DedupEvent.settle 0 ∉ evs := fun h => hns (List.mem_cons_of_mem _ h)
    obtain ⟨hpend, hlk, hmem, hcount, hpos⟩ := hInv
    cases ev with
    | call k' =>
      rcases hget : jmGet k' st.pending with _ | p
      · -- new promise created; k' cannot be k (k is pending)
        have hne : k' ≠ k := fun h => by
          subst h
          rw [hget] at hpend
          exact Option.noConfusion hpend
        have hInv' : DedupInv k
            ⟨jmSet k' st.nextId st.pending, (st.nextId, k') :: st.promiseKey,
              st.nextId + 1, st.invocations ++ [(k', st.nextId)]⟩ := by
          refine ⟨?_, ?_, ?_, ?_, ?_⟩
          · rw [jmGet_jmSet_ne k k' st.nextId st.pending hne]
            exact hpend
          · have hne0 : st.nextId ≠ 0 := by omega
            simp [lookupId, hne0, hlk]
          · intro i k2 hmem2 hk2
            rcases List.mem_cons.mp hmem2 with h | h
            · obtain ⟨h1, h2⟩ := Prod.mk.injEq .. ▸ h
              exact absurd (h2 ▸ hk2) hne
            · exact hmem i k2 h hk2
          · rw [List.filter_append]
            simp [hne, hcount]
          · exact Nat.succ_pos st.nextId
        have := ih _ hInv' hns'
        constructor
        · simpa [dedupRun, dedupCall, hget] using this.1
        · intro r hr hrk
          simp only [dedupRun, dedupCall, hget] at hr
          rcases List.mem_cons.mp hr with h | h
          · subst h
            exact absurd hrk hne
          · exact this.2 r h hrk
      · -- dedup hit: state unchanged, caller gets p
        have := ih st ⟨hpend, hlk, hmem, hcount, hpos⟩ hns'
        constructor
        · simpa [dedupRun, dedupCall, hget] using this.1
        · intro r hr hrk
          simp only [dedupRun, dedupCall, hget] at hr
          rcases List.mem_cons.mp hr with h | h
          · subst h
            simp only at hrk
            subst hrk
            exact Option.some.inj (hget.symm.trans hpend)
          · exact this.2 r h hrk
    | settle id =>
      have hid : id ≠ 0 := fun h => hns (by simp [h])
      have hSettle : DedupInv k (dedupSettle st id) := by
        unfold dedupSettle
        rcases hlk2 : lookupId id st.promiseKey with _ | k2
        · exact ⟨hpend, hlk, hmem, hcount, hpos⟩
        · have hk2 : k2 ≠ k := fun h =>
            hid (hmem id k2 (lookupId_mem id st.promiseKey k2 hlk2) h)
          refine ⟨?_, hlk, hmem, hcount, hpos⟩
          simp only
          rw [jmGet_jmDelete_ne k k2 st.pending hk2]
          exact hpend
      have := ih _ hSettle hns'
      exact ⟨by simpa [dedupRun] using this.1, by simpa [dedupRun] using this.2⟩

theorem getLast?_snoc {α : Type} (a x : α) (l : List α) :
    (a :: (l ++ [x])).getLast? = some x := by
  induction l generalizing a with
  | nil => rfl
  | cons b rest ih =>
    rw [List.cons_append, List.getLast?_cons_cons]
    exact ih b

/-- **C3.**  In any trace that starts with `getOrCreate(k, factory)` and whose
subsequent events never settle that call's promise (`settle 0 ∉ evs`), the
factory runs exactly once for `k` and every caller of `k` receives the first
promise; the settlement then removes the pending entry for `k`, and a call
made after the settlement invokes the factory a second time with a fresh
promise. -/
theorem dedup_factory_exactly_once (k : Str) (evs : List DedupEvent)
    (hns : DedupEvent.settle 0 ∉ evs) :
    (((dedupRun dedupInit (.call k :: evs)).1.invocations.filter
        (fun r => r.1 = k)).length = 1) ∧
    (∀ r ∈ (dedupRun dedupInit (.call k :: evs)).2, r.1 = k → r.2 = 0) ∧
    jmGet k (dedupSettle (dedupRun dedupInit (.call k :: evs)).1 0).pending =
      none ∧
    (((dedupRun dedupInit
        ((.call k :: evs) ++ [.settle 0, .call k])).1.invocations.filter
          (fun r => r.1 = k)).length = 2) ∧
    (∃ p, (dedupRun dedupInit
        ((.call k :: evs) ++ [.settle 0, .call k])).2.getLast? = some (k, p) ∧
      p ≠ 0) := by
  have hstep1 : dedupCall dedupInit k = (⟨[(k, 0)], [(0, k)], 1, [(k, 0)]⟩, 0) := by
    simp [dedupCall, dedupInit, jmGet, jmSet]
  have hInv1 : DedupInv k ⟨[(k, 0)], [(0, k)], 1, [(k, 0)]⟩ := by
    refine ⟨by simp [jmGet], by simp [lookupId], ?_, by simp, by exact Nat.one_pos⟩
    intro i k2 hm hk2
    simp at hm
    exact hm.1
  have hW := dedup_window k evs _ hInv1 hns
  set sF := (dedupRun (⟨[(k, 0)], [(0, k)], 1, [(k, 0)]⟩ : DedupState) evs).1
    with hsF
  have hrun : dedupRun dedupInit (.call k :: evs) =
      (sF, (k, 0) :: (dedupRun (⟨[(k, 0)], [(0, k)], 1, [(k, 0)]⟩ : DedupState) evs).2) := by
    simp [dedupRun, hstep1, hsF]
  obtain ⟨hpendF, hlkF, hmemF, hcountF, hposF⟩ := hW.1
  have htail : dedupRun sF [.settle 0, .call k] =
      (⟨jmSet k sF.nextId (jmDelete k sF.pending),
        (sF.nextId, k) :: sF.promiseKey, sF.nextId + 1,
        sF.invocations ++ [(k, sF.nextId)]⟩, [(k, sF.nextId)]) := by
    simp [dedupRun, dedupSettle, hlkF, dedupCall, jmGet_jmDelete_self]
  refine ⟨?_, ?_, ?_, ?_, ?_⟩
  · rw [hrun]
    exact hcountF
  · rw [hrun]
    intro r hr hrk
    rcases List.mem_cons.mp hr with h | h
    · subst h
      rfl
    · exact hW.2 r h hrk
  · rw [hrun]
    simp [dedupSettle, hlkF]
  · rw [dedupRun_append, hrun]
    simp only [htail, List.filter_append]
    rw [List.length_append, hcountF]
    simp
  · refine ⟨sF.nextId, ?_, by omega⟩
    rw [dedupRun_append, hrun]
    simp only [htail]
    exact getLast?_snoc _ _ _

/-- Closed witness for `dedup_factory_exactly_once`: two concurrent calls for
`"k"` (plus one for another key) run the factory once; after settlement a new
call runs it again. -/
theorem dedup_factory_exactly_once_witness :
    (((dedupRun dedupInit
        [.call "k".data, .call "k".data, .call "other".data]).1.invocations.filter
          (fun r => r.1 = "k".data)).length = 1) ∧
    (((dedupRun dedupInit
        ([.call "k".data, .call "k".data, .call "other".data] ++
          [.settle 0, .call "k".data])).1.invocations.filter
          (fun r => r.1 = "k".data)).length = 2) := by
  have h := dedup_factory_exactly_once "k".data
    [.call "k".data, .call "other".data] (by decide)
  exact ⟨h.1, h.2.2.2.1⟩

-- ══════════════════════════════════════════════════════════════════════
-- C5: NATS transport core — reply decoding and timing metadata
-- ══════════════════════════════════════════════════════════════════════

structure NatsTransportConfig where
  defaultTimeoutMs : Int
  includeTiming : Bool
deriving DecidableEq, Repr

def defaultNatsTransportConfig : NatsTransportConfig := ⟨30000, true⟩

/-- The optional fields of a decoded reply's `error` object. -/
structure ErrField (V : Type) where
  code : Option Str
  message : Option Str
  retryable : Option Bool
  details : Option V
deriving DecidableEq, Repr

/-- The decoded JSON reply as read by the transport core.  `ok` is the `"ok"`
field when it is a boolean (the code tests `decoded.ok === false`); `data` and
`result` are the optional opaque payload fields. -/
structure DecodedReply (V : Type) where
  ok : Option Bool
  error : Option (ErrField V)
  data : Option V
  result : Option V
deriving DecidableEq, Repr

structure InvocationMeta where
  startedAtUnixMs : Int
  endedAtUnixMs : Int
  durationMs : Int
deriving DecidableEq, Repr

/-- `decoded.data ?? decoded.result ?? decoded`. -/
inductive ReplyData (V : Type) where
  | val (v : V)
  | whole (r : DecodedReply V)
deriving DecidableEq, Repr

structure InvocationErrBody (V : Type) where
  code : Str
  message : Str
  retryable : Bool
  details : Option V
deriving DecidableEq, Repr

inductive InvocationResult (V : Type) where
  | ok (data : ReplyData V) (meta : InvocationMeta)
  | err (error : InvocationErrBody V) (meta : InvocationMeta)
deriving DecidableEq, Repr

/-- The reply-decoding tail of the `createNatsTransportCore` handler: the
connection acquisition and the request itself are abstracted into the decoded
reply and the two clock readings (`startedAt` before the request, `endedAt`
after the reply). -/
def transportDecode {V : Type} (cfg : NatsTransportConfig) (startedAt endedAt : Int)
    (decoded : DecodedReply V) : InvocationResult V :=
  if decoded.ok = some false then
    let e := decoded.error.getD ⟨none, none, none, none⟩
    .err ⟨e.code.getD "INTERNAL_ERROR".data,
          e.message.getD "Unknown server error".data,
          e.retryable.getD false, e.details⟩
      ⟨startedAt, endedAt, endedAt - startedAt⟩
  else
    .ok (match decoded.data with
         | some d => .val d
         | none =>
           match decoded.result with
           | some r => .val r
           | none => .whole decoded)
      (if cfg.includeTiming then ⟨startedAt, endedAt, endedAt - startedAt⟩
       else ⟨startedAt, endedAt, 0⟩)

/-- **C5 (counterexample).**  With `includeTiming = false` and an error reply
taking 5 ms, the error variant still reports `durationMs = 5`, not the claimed
`0`: the error branch computes `endedAt - startedAt` unconditionally. -/
theorem transport_error_duration_counterexample :
    transportDecode (V := Unit) ⟨30000, false⟩ 0 5 ⟨some false, none, none, none⟩ =
      .err ⟨"INTERNAL_ERROR".data, "Unknown server error".data, false, none⟩
        ⟨0, 5, 5⟩ ∧ (5 : Int) ≠ 0 := by
  decide

/-- **C5 (amended).**  A reply decoded with `ok === false` yields the error
variant with `code` defaulting to `INTERNAL_ERROR`, `message` defaulting to
`"Unknown server error"`, `retryable` defaulting to `false`, `details` passed
through, and meta timestamps preserved; the *ok* variant's `durationMs` is
`endedAt - startedAt` when `includeTiming` is true and `0` otherwise (with
timestamps preserved), while the *error* variant's `durationMs` is always
`endedAt - startedAt`, regardless of `includeTiming`. -/
theorem transport_decode_meta {V : Type} (cfg : NatsTransportConfig)
    (startedAt endedAt : Int) (decoded : DecodedReply V) :
    (∀ e : ErrField V, decoded.ok = some false → decoded.error = some e →
      transportDecode cfg startedAt endedAt decoded =
        .err ⟨e.code.getD "INTERNAL_ERROR".data,
              e.message.getD "Unknown server error".data,
              e.retryable.getD false, e.details⟩
          ⟨startedAt, endedAt, endedAt - startedAt⟩) ∧
    (decoded.ok = some false → decoded.error = none →
      transportDecode cfg startedAt endedAt decoded =
        .err ⟨"INTERNAL_ERROR".data, "Unknown server error".data, false, none⟩
          ⟨startedAt, endedAt, endedAt - startedAt⟩) ∧
    (decoded.ok ≠ some false →
      ∃ d, transportDecode cfg startedAt endedAt decoded =
        .ok d ⟨startedAt, endedAt,
          if cfg.includeTiming then endedAt - startedAt else 0⟩) := by
  refine ⟨?_, ?_, ?_⟩
  · intro e hok herr
    simp [transportDecode, hok, herr]
  · intro hok herr
    simp [transportDecode, hok, herr]
  · intro hok
    refine ⟨(match decoded.data with
      | some d => .val d
      | none =>
        match decoded.result with
        | some r => .val r
        | none => .whole decoded), ?_⟩
    rcases ht : cfg.includeTiming with _ | _ <;> simp [transportDecode, hok, ht]

/-- Closed witness for `transport_decode_meta`. -/
theorem transport_decode_meta_witness :
    transportDecode (V := Unit) ⟨30000, true⟩ 10 25
        ⟨some false, some ⟨some "NOT_FOUND".data, none, some true, none⟩, none, none⟩ =
      .err ⟨"NOT_FOUND".data, "Unknown server error".data, true, none⟩
        ⟨10, 25, 15⟩ ∧
    (∃ d, transportDecode (V := Unit) ⟨30000, false⟩ 10 25
        ⟨some true, none, some (), none⟩ = .ok d ⟨10, 25, 0⟩) := by
  refine ⟨?_, ?_⟩
  · exact (transport_decode_meta (V := Unit) ⟨30000, true⟩ 10 25
      ⟨some false, some ⟨some "NOT_FOUND".data, none, some true, none⟩, none, none⟩).1
      ⟨some "NOT_FOUND".data, none, some true, none⟩ rfl rfl
  · obtain ⟨d, hd⟩ := (transport_decode_meta (V := Unit) ⟨30000, false⟩ 10 25
      ⟨some true, none, some (), none⟩).2.2 (by decide)
    exact ⟨d, by simpa using hd⟩

-- ══════════════════════════════════════════════════════════════════════
-- C6: deadline middleware
-- ══════════════════════════════════════════════════════════════════════

/-- Observable behaviour of one `createDeadlineMiddleware` handler run:
either it throws `TIMEOUT` without calling `next`, or it calls `next`
(`some t` = with a cancel signal that fires `TIMEOUT` after `t` ms). -/
inductive DeadlineOutcome where
  | failTimeout
  | callNext (timerMs : Option Int)
deriving DecidableEq, Repr

/-- `createDeadlineMiddleware`'s handler as a function of `ctx.timeoutMs`,
`ctx.deadlineUnixMs` and the clock reading.  JS truthiness: the guards are
`timeoutMs && timeoutMs > 0` and `deadline && deadline > 0`. -/
def deadlineStep (timeoutMs deadlineUnixMs : Option Int) (now : Int) :
    DeadlineOutcome :=
  let deadlineBranch : DeadlineOutcome :=
    match deadlineUnixMs with
    | some d =>
      if d ≠ 0 ∧ d > 0 then
        (if now ≥ d then .failTimeout else .callNext none)
      else .callNext none
    | none => .callNext none
  match timeoutMs with
  | some t => if t ≠ 0 ∧ t > 0 then .callNext (some t) else deadlineBranch
  | none => deadlineBranch

/-- **C6 (counterexample).**  With both `timeoutMs = 100` and an
already-passed `deadlineUnixMs = 5` (`now = 10`), the middleware does *not*
fail immediately: the `timeoutMs` branch returns first and `next` is called
with the timer signal — the deadline check is skipped. -/
theorem deadline_both_set_counterexample :
    deadlineStep (some 100) (some 5) 10 = .callNext (some 100) ∧
    deadlineStep (some 100) (some 5) 10 ≠ .failTimeout ∧
    (10 : Int) ≥ 5 := by
  decide

/-- **C6 (amended).**  When `timeoutMs` is positive the middleware always
calls `next` with a cancel signal firing `TIMEOUT` after `timeoutMs` — even
when an already-passed `deadlineUnixMs` is also set; the immediate `TIMEOUT`
failure on a passed positive deadline happens only when `timeoutMs` is absent
or not positive (and `next` is not called then); with a positive deadline
still in the future it calls `next` with no timer. -/
theorem deadline_step_behavior (timeoutMs deadlineUnixMs : Option Int)
    (now : Int) :
    (∀ t, timeoutMs = some t → t > 0 →
      deadlineStep timeoutMs deadlineUnixMs now = .callNext (some t)) ∧
    ((timeoutMs = none ∨ ∃ t, timeoutMs = some t ∧ ¬ t > 0) →
      ∀ d, deadlineUnixMs = some d → d > 0 → now ≥ d →
        deadlineStep timeoutMs deadlineUnixMs now = .failTimeout) ∧
    ((timeoutMs = none ∨ ∃ t, timeoutMs = some t ∧ ¬ t > 0) →
      ∀ d, deadlineUnixMs = some d → d > 0 → now < d →
        deadlineStep timeoutMs deadlineUnixMs now = .callNext none) := by
  refine ⟨?_, ?_, ?_⟩
  · intro t ht htpos
    have : t ≠ 0 := by omega
    simp [deadlineStep, ht, htpos, this]
  · intro hto d hd hdpos hpassed
    have hd0 : d ≠ 0 := by omega
    have hnlt : ¬ now < d := by omega
    rcases hto with hto | ⟨t, hto, htn⟩
    · simp [deadlineStep, hto, hd, hd0, hdpos, hpassed, hnlt]
    · simp [deadlineStep, hto, hd, hd0, hdpos, hpassed, hnlt, htn]
  · intro hto d hd hdpos hfuture
    have hd0 : d ≠ 0 := by omega
    have hnot : ¬ now ≥ d := by omega
    rcases hto with hto | ⟨t, hto, htn⟩
    · simp [deadlineStep, hto, hd, hd0, hdpos, hnot]
    · simp [deadlineStep, hto, hd, hd0, hdpos, hnot, htn]

/-- Closed witness for `deadline_step_behavior`. -/
theorem deadline_step_behavior_witness :
    deadlineStep (some 100) (some 5) 10 = .callNext (some 100) ∧
    deadlineStep none (some 5) 10 = .failTimeout ∧
    deadlineStep none (some 50) 10 = .callNext none := by
  refine ⟨?_, ?_, ?_⟩
  · exact (deadline_step_behavior (some 100) (some 5) 10).1 100 rfl (by decide)
  · exact (deadline_step_behavior none (some 5) 10).2.1 (Or.inl rfl) 5 rfl
      (by decide) (by decide)
  · exact (deadline_step_behavior none (some 50) 10).2.2 (Or.inl rfl) 50 rfl
      (by decide) (by decide)

-- ══════════════════════════════════════════════════════════════════════
-- C7: NATS connection pool — expired credentials are never served
-- ══════════════════════════════════════════════════════════════════════

structure NatsCredentials where
  token : Option Str
  user : Option Str
  pass : Option Str
  expiresAt : Option Int
deriving DecidableEq, Repr

/-- A pool entry; connections are named by `Nat` ids. -/
structure PoolEntry where
  connection : Nat
  credentials : NatsCredentials
  natsUrl : Str
  connectedAt : Int
  lastUsedAt : Int
deriving DecidableEq, Repr

structure PoolState where
  connections : JMap PoolEntry
  defaultConnection : Nat
  defaultUrl : Str
  /-- `config.maxConnections ?? 10`, already resolved. -/
  maxConnections : Int
  /-- whether `config.authProvider` is configured -/
  authConfigured : Bool
deriving DecidableEq, Repr

/-- `NatsConnectionPool.normalizeUrl`: strip trailing slashes, lowercase. -/
def normalizeUrl (url : Str) : Str :=
  ((url.reverse.dropWhile (· = '/')).reverse).map Char.toLower

/-- `isCredentialExpired`: expired 30 s before `expiresAt`. -/
def isCredentialExpired (creds : NatsCredentials) (now : Int) : Bool :=
  match creds.expiresAt with
  | none => false
  | some e => now ≥ e - 30000

/-- The LRU scan of `evictIfNeeded` (`oldestTime` starts at `Infinity`, strict
`<`, so the first entry attaining the minimum wins). -/
def findLRU (conns : JMap PoolEntry) : Option Str :=
  (conns.foldl
    (fun acc kv =>
      match acc with
      | none => some (kv.1, kv.2.lastUsedAt)
      | some (_, best) =>
        if kv.2.lastUsedAt < best then some (kv.1, kv.2.lastUsedAt) else acc)
    none).map Prod.fst

def evictIfNeeded (st : PoolState) : PoolState :=
  let maxRemote := st.maxConnections - 1
  if (st.connections.length : Int) < maxRemote then st
  else
    match findLRU st.connections with
    | some url => { st with connections := jmDelete url st.connections }
    | none => st

inductive PoolResult where
  | conn (id : Nat)
  | err (code : Str)
deriving DecidableEq, Repr

/-- `NatsConnectionPool.getOrConnect`.  The awaited auth-provider call and the
NATS connect are oracles (`authResult`, `connectResult`); `now` is the clock
reading; draining a closed entry is modelled by its removal from the map. -/
def getOrConnect (st : PoolState) (natsUrl : Str) (now : Int)
    (authResult : Except Unit NatsCredentials) (connectResult : Except Unit Nat) :
    PoolResult × PoolState :=
  let url := normalizeUrl natsUrl
  if url = st.defaultUrl then (.conn st.defaultConnection, st)
  else
    let connectFresh : PoolState → PoolResult × PoolState := fun st1 =>
      if st1.authConfigured = false then (.err "AUTH_FAILED".data, st1)
      else
        let st2 := evictIfNeeded st1
        match authResult with
        | .error _ => (.err "AUTH_FAILED".data, st2)
        | .ok creds =>
          match connectResult with
          | .error _ => (.err "INTERNAL_ERROR".data, st2)
          | .ok cid =>
            (.conn cid,
             { st2 with connections :=
                (jmSet url ⟨cid, creds, url, now, now⟩ st2.connections) })
    match jmGet url st.connections with
    | some e =>
      if isCredentialExpired e.credentials now = false then
        (.conn e.connection,
         { st with connections :=
            (jmSet url { e with lastUsedAt := now } st.connections) })
      else connectFresh { st with connections := jmDelete url st.connections }
    | none => connectFresh st

theorem jmGet_jmDelete_none {V : Type} (k k' : Str) (m : JMap V)
    (h : jmGet k m = none) : jmGet k (jmDelete k' m) = none := by
  by_cases hk : k' = k
  · subst hk
    exact jmGet_jmDelete_self k' m
  · rw [jmGet_jmDelete_ne k k' m hk]
    exact h

theorem evict_preserves_none (st : PoolState) (k : Str)
    (h : jmGet k st.connections = none) :
    jmGet k (evictIfNeeded st).connections = none := by
  unfold evictIfNeeded
  simp only
  split
  · exact h
  · rcases hf : findLRU st.connections with _ | url
    · simpa [hf] using h
    · simp only [hf]
      exact jmGet_jmDelete_none k url st.connections h

/-- **C7.**  If the pool holds a non-default entry whose credentials are
expired under the 30-seconds-early policy (`now ≥ expiresAt - 30 s`),
`getOrConnect` never returns that entry's connection: under any auth/connect
outcome (with connect producing a fresh connection id) the stale entry is
dropped from the pool, and when the auth provider is configured and both the
auth call and the connect succeed, the fresh connection is returned and
installed in the pool with the new credentials. -/
theorem pool_never_returns_expired (st : PoolState) (natsUrl : Str) (now : Int)
    (e : PoolEntry)
    (hnd : normalizeUrl natsUrl ≠ st.defaultUrl)
    (hentry : jmGet (normalizeUrl natsUrl) st.connections = some e)
    (hexp : isCredentialExpired e.credentials now = true) :
    (∀ (authResult : Except Unit NatsCredentials) (connectResult : Except Unit Nat),
      (∀ c, connectResult = .ok c → c ≠ e.connection) →
      (getOrConnect st natsUrl now authResult connectResult).1 ≠
        .conn e.connection ∧
      jmGet (normalizeUrl natsUrl)
        (getOrConnect st natsUrl now authResult connectResult).2.connections ≠
        some e) ∧
    (∀ creds cid, st.authConfigured = true →
      ∃ st', getOrConnect st natsUrl now (.ok creds) (.ok cid) =
          (.conn cid, st') ∧
        jmGet (normalizeUrl natsUrl) st'.connections =
          some ⟨cid, creds, normalizeUrl natsUrl, now, now⟩) := by
  have hgone : ∀ st1 : PoolState,
      jmGet (normalizeUrl natsUrl) st1.connections = none →
      jmGet (normalizeUrl natsUrl) (evictIfNeeded st1).connections = none :=
    fun st1 h => evict_preserves_none st1 _ h
  have hdel : jmGet (normalizeUrl natsUrl)
      (jmDelete (normalizeUrl natsUrl) st.connections) = none :=
    jmGet_jmDelete_self _ _
  constructor
  · intro authResult connectResult hfresh
    rcases hac : st.authConfigured with _ | _
    · constructor
      · simp [getOrConnect, hnd, hentry, hexp, hac]
      · simp only [getOrConnect, hnd, hentry, hexp, hac]
        simp [hdel]
    · rcases authResult with _ | creds
      · constructor
        · simp [getOrConnect, hnd, hentry, hexp, hac]
        · simp only [getOrConnect, hnd, hentry, hexp, hac]
          simp
          rw [hgone _ (by simp [hdel])]
          simp
      · rcases connectResult with _ | cid
        · constructor
          · simp [getOrConnect, hnd, hentry, hexp, hac]
          · simp only [getOrConnect, hnd, hentry, hexp, hac]
            simp
            rw [hgone _ (by simp [hdel])]
            simp
        · have hcne : cid ≠ e.connection := hfresh cid rfl
          constructor
          · simp [getOrConnect, hnd, hentry, hexp, hac, hcne]
          · simp only [getOrConnect, hnd, hentry, hexp, hac]
            simp [jmGet_jmSet_self]
            intro h
            exact hcne (congrArg PoolEntry.connection h)
  · intro creds cid hac
    refine ⟨{ evictIfNeeded { st with connections :=
        (jmDelete (normalizeUrl natsUrl) st.connections) } with
        connections := (jmSet (normalizeUrl natsUrl)
          ⟨cid, creds, normalizeUrl natsUrl, now, now⟩
          (evictIfNeeded { st with connections :=
            (jmDelete (normalizeUrl natsUrl) st.connections) }).connections) },
      ?_, ?_⟩
    · simp [getOrConnect, hnd, hentry, hexp, hac]
    · simp [jmGet_jmSet_self]

/-- Closed witness for `pool_never_returns_expired`: an entry for
`nats://sandbox:4222` whose credentials expired (`expiresAt = 100000`,
`now = 99999 ≥ expiresAt - 30000`) is dropped and replaced by the fresh
connection `7`. -/
theorem pool_never_returns_expired_witness :
    (getOrConnect
        ⟨[("nats://sandbox:4222".data,
           ⟨3, ⟨some "tok".data, none, none, some 100000⟩,
            "nats://sandbox:4222".data, 0, 0⟩)],
         1, "nats://default:4222".data, 10, true⟩
        "nats://sandbox:4222".data 99999
        (.ok ⟨some "tok2".data, none, none, some 500000⟩) (.ok 7)).1 ≠
      .conn 3 ∧
    (∃ st', getOrConnect
        ⟨[("nats://sandbox:4222".data,
           ⟨3, ⟨some "tok".data, none, none, some 100000⟩,
            "nats://sandbox:4222".data, 0, 0⟩)],
         1, "nats://default:4222".data, 10, true⟩
        "nats://sandbox:4222".data 99999
        (.ok ⟨some "tok2".data, none, none, some 500000⟩) (.ok 7) =
          (.conn 7, st') ∧
      jmGet (normalizeUrl "nats://sandbox:4222".data) st'.connections =
        some ⟨7, ⟨some "tok2".data, none, none, some 500000⟩,
          normalizeUrl "nats://sandbox:4222".data, 99999, 99999⟩) := by
  have h := pool_never_returns_expired
    ⟨[("nats://sandbox:4222".data,
       ⟨3, ⟨some "tok".data, none, none, some 100000⟩,
        "nats://sandbox:4222".data, 0, 0⟩)],
     1, "nats://default:4222".data, 10, true⟩
    "nats://sandbox:4222".data 99999
    ⟨3, ⟨some "tok".data, none, none, some 100000⟩,
     "nats://sandbox:4222".data, 0, 0⟩
    (by decide) (by decide) (by decide)
  exact ⟨(h.1 (.ok ⟨some "tok2".data, none, none, some 500000⟩) (.ok 7)
      (by intro c hc; cases hc; decide)).1,
    h.2 ⟨some "tok2".data, none, none, some 500000⟩ 7 rfl⟩

-- ══════════════════════════════════════════════════════════════════════
-- C8: composeDecisions (common policy composition)
-- ══════════════════════════════════════════════════════════════════════

/-- A denial record (`DenialSchema`); `V` is the opaque `details` payload. -/
structure Denial (V : Type) where
  code : Str
  message : Str
  target : Str
  path : Option Str
  details : Option V
deriving DecidableEq, Repr

/-- `JsonPatchOpSchema`; `fromPath` models the source field `from`
(a reserved word in Lean). -/
structure JsonPatchOp (V : Type) where
  op : Str
  path : Str
  fromPath : Option Str
  value : Option V
deriving DecidableEq, Repr

/-- `ObligationSchema`. -/
structure Obligation (V : Type) where
  type : Str
  phase : Str
  required : Bool
  params : Option V
deriving DecidableEq, Repr

/-- `LimitsSchema`: six optional numeric coordinates. -/
structure Limits where
  timeout_ms : Option Int
  max_concurrency : Option Int
  max_input_tokens : Option Int
  max_output_tokens : Option Int
  max_pages : Option Int
  max_ocr_pages : Option Int
deriving DecidableEq, Repr

def emptyLimits : Limits := ⟨none, none, none, none, none, none⟩

/-- `RoutingSchema`. -/
structure Routing where
  queue_group : Option Str
  worker_pool : Option Str
  priority : Option Str
  region : Option Str
deriving DecidableEq, Repr

/-- `PolicyDecision` as composed over; the list/limits fields are optional
because `composeDecisions` defends each read with `?? []` / `?? {}`. -/
structure PolicyDecision (V : Type) where
  allow : Bool
  deny : Option (List (Denial V))
  reasons : Option (List Str)
  patches : Option (List (JsonPatchOp V))
  limits : Option Limits
  obligations : Option (List (Obligation V))
  labels : Option (List (Str × Str))
  routing : Option Routing
deriving DecidableEq, Repr

structure AppliedPolicy where
  policyId : Str
  matchType : Str
  priority : Int
  bindingId : Str
  reason : Str
deriving DecidableEq, Repr

structure ComposedDecision (V : Type) where
  allow : Bool
  deny : List (Denial V)
  reasons : List Str
  patches : List (JsonPatchOp V)
  limits : Limits
  obligations : List (Obligation V)
  labels : List (Str × Str)
  routing : Option Routing
  appliedPolicies : List AppliedPolicy
deriving DecidableEq, Repr

/-- `minNum`: `null`s are identities, otherwise `Math.min`. -/
def minNum : Option Int → Option Int → Option Int
  | none, b => b
  | some a, none => some a
  | some a, some b => some (min a b)

/-- Record-spread merge `{...acc, ...l}`: keys of `l` override in place,
new keys append (JS object key order). -/
def recordMerge (acc l : List (Str × Str)) : List (Str × Str) :=
  l.foldl (fun a kv => jmSet kv.1 kv.2 a) acc

/-- The `reduce` callback collapsing limits coordinate-wise through `minNum`. -/
def limitsStep {V : Type} (acc : Limits) (x : PolicyDecision V × AppliedPolicy) :
    Limits :=
  let l := x.1.limits.getD emptyLimits
  ⟨minNum acc.timeout_ms l.timeout_ms,
   minNum acc.max_concurrency l.max_concurrency,
   minNum acc.max_input_tokens l.max_input_tokens,
   minNum acc.max_output_tokens l.max_output_tokens,
   minNum acc.max_pages l.max_pages,
   minNum acc.max_ocr_pages l.max_ocr_pages⟩

/-- `composeDecisions`. -/
def composeDecisions {V : Type} (items : List (PolicyDecision V × AppliedPolicy)) :
    ComposedDecision V :=
  let appliedPolicies := items.map (·.2)
  let denied := items.find? (fun x => x.1.allow = false)
  let allow := !denied.isSome
  let deny := items.bind (fun x => x.1.deny.getD [])
  let reasons := items.bind (fun x => x.1.reasons.getD [])
  let limits := items.foldl limitsStep emptyLimits
  let patches := items.bind (fun x => x.1.patches.getD [])
  let obligations := items.bind (fun x => x.1.obligations.getD [])
  let labels := items.foldl (fun acc x => recordMerge acc (x.1.labels.getD [])) []
  let routing := items.foldl
    (fun acc x =>
      match x.1.routing with
      | some r => some r
      | none => acc)
    none
  ⟨allow, deny, reasons, patches, limits, obligations, labels, routing,
    appliedPolicies⟩

theorem minNum_none_left (b : Option Int) : minNum none b = b := rfl

theorem minNum_comm (a b : Option Int) : minNum a b = minNum b a := by
  rcases a with _ | a <;> rcases b with _ | b <;> simp [minNum, min_comm]

theorem minNum_assoc (a b c : Option Int) :
    minNum (minNum a b) c = minNum a (minNum b c) := by
  rcases a with _ | a <;> rcases b with _ | b <;> rcases c with _ | c <;>
    simp [minNum, min_assoc]

theorem foldl_minNum_acc (l : List (Option Int)) :
    ∀ acc : Option Int, l.foldl minNum acc = minNum acc (l.foldl minNum none) := by
  induction l with
  | nil => intro acc; rcases acc with _ | a <;> simp [minNum]
  | cons x l ih =>
    intro acc
    simp only [List.foldl_cons]
    rw [ih (minNum acc x), ih (minNum none x), minNum_assoc, minNum_none_left]

/-- `res` is the minimum of the values present in `l` (`none` iff none are
present). -/
def isMinOfPresent (res : Option Int) (l : List (Option Int)) : Prop :=
  match res with
  | none => ∀ x ∈ l, x = none
  | some v => some v ∈ l ∧ ∀ w : Int, some w ∈ l → v ≤ w

theorem foldMin_spec (l : List (Option Int)) :
    isMinOfPresent (l.foldl minNum none) l := by
  induction l with
  | nil => intro x hx; cases hx
  | cons x l ih =>
    simp only [List.foldl_cons, minNum_none_left]
    rw [foldl_minNum_acc l x]
    rcases x with _ | a
    · rw [minNum_none_left]
      rcases hf : l.foldl minNum none with _ | v
      · rw [hf] at ih
        intro y hy
        rcases List.mem_cons.mp hy with rfl | hy
        · rfl
        · exact ih y hy
      · rw [hf] at ih
        exact ⟨List.mem_cons_of_mem _ ih.1,
          fun w hw => by
            rcases List.mem_cons.mp hw with h | h
            · exact absurd h (by simp)
            · exact ih.2 w h⟩
    · rcases hf : l.foldl minNum none with _ | v
      · rw [hf] at ih
        simp only [minNum]
        refine ⟨List.mem_cons_self _ _, ?_⟩
        intro w hw
        rcases List.mem_cons.mp hw with h | h
        · simp at h
          omega
        · exact absurd (ih _ h) (by simp)
      · rw [hf] at ih
        simp only [minNum]
        constructor
        · rcases le_total a v with hle | hle
          · have : min a v = a := min_eq_left hle
            rw [this]
            exact List.mem_cons_self _ _
          · have : min a v = v := min_eq_right hle
            rw [this]
            exact List.mem_cons_of_mem _ ih.1
        · intro w hw
          rcases List.mem_cons.mp hw with h | h
          · simp at h
            subst h
            exact min_le_left _ _
          · exact le_trans (min_le_right _ _) (ih.2 w h)

theorem find?_isSome_perm {α : Type} (p : α → Bool) {l l' : List α}
    (h : l.Perm l') : (l.find? p).isSome = (l'.find? p).isSome := by
  rcases h1 : l.find? p with _ | x <;> rcases h2 : l'.find? p with _ | y <;> simp
  · have hnone := List.find?_eq_none.mp h1
    have hy := List.mem_of_find?_eq_some h2
    exact absurd (List.find?_some h2) (by simpa using hnone y (h.mem_iff.mpr hy))
  · have hnone := List.find?_eq_none.mp h2
    have hx := List.mem_of_find?_eq_some h1
    exact absurd (List.find?_some h1) (by simpa using hnone x (h.mem_iff.mp hx))

theorem foldl_limitsStep_coords {V : Type}
    (items : List (PolicyDecision V × AppliedPolicy)) :
    ∀ acc : Limits, items.foldl limitsStep acc =
      ⟨(items.map (fun x => (x.1.limits.getD emptyLimits).timeout_ms)).foldl
          minNum acc.timeout_ms,
       (items.map (fun x => (x.1.limits.getD emptyLimits).max_concurrency)).foldl
          minNum acc.max_concurrency,
       (items.map (fun x => (x.1.limits.getD emptyLimits).max_input_tokens)).foldl
          minNum acc.max_input_tokens,
       (items.map (fun x => (x.1.limits.getD emptyLimits).max_output_tokens)).foldl
          minNum acc.max_output_tokens,
       (items.map (fun x => (x.1.limits.getD emptyLimits).max_pages)).foldl
          minNum acc.max_pages,
       (items.map (fun x => (x.1.limits.getD emptyLimits).max_ocr_pages)).foldl
          minNum acc.max_ocr_pages⟩ := by
  induction items with
  | nil => intro acc; simp
  | cons x items ih =>
    intro acc
    simp only [List.foldl_cons, List.map_cons]
    rw [ih (limitsStep acc x)]
    rfl

/-- **C8 (counterexample).**  `composeDecisions` is *not* order-independent in
its `deny` output: swapping two inputs whose denials are `A` and `B` swaps
the composed `deny` list ( `[A, B] ≠ [B, A]` ), even though the input lists
are permutations of each other. -/
theorem compose_deny_order_counterexample :
    (composeDecisions (V := Unit)
      [(⟨true, some [⟨"A".data, "a".data, "request".data, none, none⟩],
          none, none, none, none, none, none⟩,
        ⟨"p1".data, "tags".data, 0, "b1".data, "r".data⟩),
       (⟨true, some [⟨"B".data, "b".data, "request".data, none, none⟩],
          none, none, none, none, none, none⟩,
        ⟨"p2".data, "tags".data, 0, "b2".data, "r".data⟩)]).deny ≠
    (composeDecisions (V := Unit)
      [(⟨true, some [⟨"B".data, "b".data, "request".data, none, none⟩],
          none, none, none, none, none, none⟩,
        ⟨"p2".data, "tags".data, 0, "b2".data, "r".data⟩),
       (⟨true, some [⟨"A".data, "a".data, "request".data, none, none⟩],
          none, none, none, none, none, none⟩,
        ⟨"p1".data, "tags".data, 0, "b1".data, "r".data⟩)]).deny ∧
    ([(⟨true, some [⟨"A".data, "a".data, "request".data, none, none⟩],
          none, none, none, none, none, none⟩,
        ⟨"p1".data, "tags".data, 0, "b1".data, "r".data⟩),
       (⟨true, some [⟨"B".data, "b".data, "request".data, none, none⟩],
          none, none, none, none, none, none⟩,
        (⟨"p2".data, "tags".data, 0, "b2".data, "r".data⟩ : AppliedPolicy))] :
      List (PolicyDecision Unit × AppliedPolicy)).Perm
      [(⟨true, some [⟨"B".data, "b".data, "request".data, none, none⟩],
          none, none, none, none, none, none⟩,
        ⟨"p2".data, "tags".data, 0, "b2".data, "r".data⟩),
       (⟨true, some [⟨"A".data, "a".data, "request".data, none, none⟩],
          none, none, none, none, none, none⟩,
        ⟨"p1".data, "tags".data, 0, "b1".data, "r".data⟩)] := by
  constructor
  · decide
  · exact List.Perm.swap _ _ _

/-- **C8 (amended).**  `composeDecisions` is order-independent (commutative
under permutation of its inputs) in its `allow` output; its `deny`, like
`patches` and `obligations`, is the concatenation of the inputs' lists in the
input order (hence only permutation-invariant as a multiset, not as a list);
and each coordinate of the composed `limits` is the minimum of the
coordinates present across the inputs. -/
theorem compose_decisions_order {V : Type}
    (items items' xs ys : List (PolicyDecision V × AppliedPolicy))
    (hperm : items.Perm items') :
    ((composeDecisions items).allow = (composeDecisions items').allow) ∧
    ((composeDecisions items).deny.Perm (composeDecisions items').deny) ∧
    ((composeDecisions (xs ++ ys)).deny =
      (composeDecisions xs).deny ++ (composeDecisions ys).deny) ∧
    ((composeDecisions (xs ++ ys)).patches =
      (composeDecisions xs).patches ++ (composeDecisions ys).patches) ∧
    ((composeDecisions (xs ++ ys)).obligations =
      (composeDecisions xs).obligations ++ (composeDecisions ys).obligations) ∧
    isMinOfPresent (composeDecisions items).limits.timeout_ms
      (items.map (fun x => (x.1.limits.getD emptyLimits).timeout_ms)) ∧
    isMinOfPresent (composeDecisions items).limits.max_concurrency
      (items.map (fun x => (x.1.limits.getD emptyLimits).max_concurrency)) ∧
    isMinOfPresent (composeDecisions items).limits.max_input_tokens
      (items.map (fun x => (x.1.limits.getD emptyLimits).max_input_tokens)) ∧
    isMinOfPresent (composeDecisions items).limits.max_output_tokens
      (items.map (fun x => (x.1.limits.getD emptyLimits).max_output_tokens)) ∧
    isMinOfPresent (composeDecisions items).limits.max_pages
      (items.map (fun x => (x.1.limits.getD emptyLimits).max_pages)) ∧
    isMinOfPresent (composeDecisions items).limits.max_ocr_pages
      (items.map (fun x => (x.1.limits.getD emptyLimits).max_ocr_pages)) := by
  have hlim : (composeDecisions items).limits =
      ⟨(items.map (fun x => (x.1.limits.getD emptyLimits).timeout_ms)).foldl
          minNum none,
       (items.map (fun x => (x.1.limits.getD emptyLimits).max_concurrency)).foldl
          minNum none,
       (items.map (fun x => (x.1.limits.getD emptyLimits).max_input_tokens)).foldl
          minNum none,
       (items.map (fun x => (x.1.limits.getD emptyLimits).max_output_tokens)).foldl
          minNum none,
       (items.map (fun x => (x.1.limits.getD emptyLimits).max_pages)).foldl
          minNum none,
       (items.map (fun x => (x.1.limits.getD emptyLimits).max_ocr_pages)).foldl
          minNum none⟩ := by
    simp only [composeDecisions]
    exact foldl_limitsStep_coords items emptyLimits
  refine ⟨?_, ?_, ?_, ?_, ?_, ?_, ?_, ?_, ?_, ?_, ?_⟩
  · simp only [composeDecisions]
    rw [find?_isSome_perm _ hperm]
  · exact List.Perm.bind_right _ hperm
  · simp [composeDecisions]
  · simp [composeDecisions]
  · simp [composeDecisions]
  · rw [hlim]
    exact foldMin_spec _
  · rw [hlim]
    exact foldMin_spec _
  · rw [hlim]
    exact foldMin_spec _
  · rw [hlim]
    exact foldMin_spec _
  · rw [hlim]
    exact foldMin_spec _
  · rw [hlim]
    exact foldMin_spec _

/-- Closed witness for `compose_decisions_order` at a two-element input. -/
theorem compose_decisions_order_witness :
    ((composeDecisions (V := Unit)
      [(⟨false, none, none, none, some ⟨some 100, none, none, none, none, none⟩,
          none, none, none⟩, ⟨"p1".data, "tags".data, 0, "b1".data, "r".data⟩),
       (⟨true, none, none, none, some ⟨some 50, none, none, none, none, none⟩,
          none, none, none⟩,
        ⟨"p2".data, "tags".data, 0, "b2".data, "r".data⟩)]).allow =
     (composeDecisions (V := Unit)
      [(⟨true, none, none, none, some ⟨some 50, none, none, none, none, none⟩,
          none, none, none⟩, ⟨"p2".data, "tags".data, 0, "b2".data, "r".data⟩),
       (⟨false, none, none, none, some ⟨some 100, none, none, none, none, none⟩,
          none, none, none⟩,
        ⟨"p1".data, "tags".data, 0, "b1".data, "r".data⟩)]).allow) ∧
    isMinOfPresent (composeDecisions (V := Unit)
      [(⟨false, none, none, none, some ⟨some 100, none, none, none, none, none⟩,
          none, none, none⟩, ⟨"p1".data, "tags".data, 0, "b1".data, "r".data⟩),
       (⟨true, none, none, none, some ⟨some 50, none, none, none, none, none⟩,
          none, none, none⟩,
        ⟨"p2".data, "tags".data, 0, "b2".data, "r".data⟩)]).limits.timeout_ms
      [some 100, some 50] := by
  have h := compose_decisions_order (V := Unit)
    [(⟨false, none, none, none, some ⟨some 100, none, none, none, none, none⟩,
        none, none, none⟩, ⟨"p1".data, "tags".data, 0, "b1".data, "r".data⟩),
     (⟨true, none, none, none, some ⟨some 50, none, none, none, none, none⟩,
        none, none, none⟩, ⟨"p2".data, "tags".data, 0, "b2".data, "r".data⟩)]
    [(⟨true, none, none, none, some ⟨some 50, none, none, none, none, none⟩,
        none, none, none⟩, ⟨"p2".data, "tags".data, 0, "b2".data, "r".data⟩),
     (⟨false, none, none, none, some ⟨some 100, none, none, none, none, none⟩,
        none, none, none⟩, ⟨"p1".data, "tags".data, 0, "b1".data, "r".data⟩)]
    [] [] (List.Perm.swap _ _ _)
  exact ⟨h.1, h.2.2.2.2.2.1⟩

-- ══════════════════════════════════════════════════════════════════════
-- C9: parse / canonicalize round trip
-- ══════════════════════════════════════════════════════════════════════

theorem toNat_ofNat_small (n : Nat) (h : n < 55296) : (Char.ofNat n).toNat = n := by
  have hv : n.isValidChar := Or.inl h
  simp [Char.ofNat, hv, Char.ofNatAux, Char.toNat, UInt32.toNat,
    BitVec.toNat_ofNatLt]

/-- ASCII lowercasing is idempotent. -/
theorem toLower_idem (c : Char) : c.toLower.toLower = c.toLower := by
  unfold Char.toLower
  by_cases h : 65 ≤ c.toNat ∧ c.toNat ≤ 90
  · rw [if_pos h]
    have h32 : (Char.ofNat (c.toNat + 32)).toNat = c.toNat + 32 :=
      toNat_ofNat_small _ (by omega)
    rw [if_neg]
    rw [h32]
    omega
  · rw [if_neg h, if_neg h]

theorem map_toLower_idem (s : Str) :
    (s.map Char.toLower).map Char.toLower = s.map Char.toLower := by
  rw [List.map_map]
  exact List.map_congr_left (fun c _ => toLower_idem c)

/-- Characters that can occur in a `normalizeVersion` output. -/
def vOutOk (c : Char) : Bool :=
  versionCharOk c || c = '+'

theorem digit_vOutOk (c : Char) (h : c.isDigit = true) : vOutOk c = true := by
  simp [vOutOk, versionCharOk, Char.isAlphanum, h]

theorem versionCharOk_vOutOk (c : Char) (h : versionCharOk c = true) :
    vOutOk c = true := by
  simp [vOutOk, h]

theorem eatDigits_decomp (s r : Str) (h : eatDigits s = some r) :
    s = s.takeWhile Char.isDigit ++ r ∧ s.takeWhile Char.isDigit ≠ [] ∧
      ∀ c ∈ s.takeWhile Char.isDigit, c.isDigit = true := by
  by_cases ht : s.takeWhile Char.isDigit = []
  · simp [eatDigits, ht] at h
  · simp only [eatDigits, ht, if_neg, ite_false] at h
    obtain rfl := Option.some.inj h
    exact ⟨(List.takeWhile_append_dropWhile _ _).symm, ht,
      fun c hc => List.mem_takeWhile_imp hc⟩

theorem versionTail_chars (t : Str) (h : versionTail t = true) :
    ∀ c ∈ t, vOutOk c = true := by
  rcases t with _ | ⟨c, rest⟩
  · intro c hc
    cases hc
  · by_cases hc1 : c = '-'
    · subst hc1
      simp only [versionTail, if_pos] at h
      intro x hx
      rcases List.mem_cons.mp hx with rfl | hx
      · decide
      · have hsplit := (List.takeWhile_append_dropWhile
          (p := versionCharOk) (l := rest)).symm
        rw [hsplit] at hx
        rcases List.mem_append.mp hx with hx | hx
        · exact versionCharOk_vOutOk _ (List.mem_takeWhile_imp hx)
        · rcases hr : rest.dropWhile versionCharOk with _ | ⟨c2, b⟩
          · rw [hr] at hx
            cases hx
          · rw [hr] at h hx
            simp only [Bool.and_eq_true, decide_eq_true_eq] at h
            obtain ⟨-, ⟨hplus, -⟩, hball⟩ := h
            rcases List.mem_cons.mp hx with rfl | hx
            · rw [hplus]
              decide
            · exact versionCharOk_vOutOk _ ((List.all_eq_true.mp hball) x hx)
    · by_cases hc2 : c = '+'
      · subst hc2
        simp only [versionTail, if_neg (by decide : ¬ ('+' : Char) = '-'),
          if_pos, Bool.and_eq_true, decide_eq_true_eq] at h
        intro x hx
        rcases List.mem_cons.mp hx with rfl | hx
        · decide
        · exact versionCharOk_vOutOk _ ((List.all_eq_true.mp h.2) x hx)
      · simp [versionTail, hc1, hc2] at h

theorem versionFull_chars (s : Str) (h : versionFull s = true) :
    s ≠ [] ∧ ∀ c ∈ s, vOutOk c = true := by
  unfold versionFull at h
  split at h
  · cases h
  rename_i r1 h1
  split at h
  · cases h
  rename_i c1 r2
  split at h
  swap
  · cases h
  rename_i hc1
  subst hc1
  split at h
  · cases h
  rename_i r3 h2
  split at h
  · cases h
  rename_i c2 r4
  split at h
  swap
  · cases h
  rename_i hc2
  subst hc2
  split at h
  swap
  · cases h
  rename_i r5 h3
  obtain ⟨hs1, hne1, hdig1⟩ := eatDigits_decomp s _ h1
  obtain ⟨hs2, hne2, hdig2⟩ := eatDigits_decomp r2 _ h2
  obtain ⟨hs3, hne3, hdig3⟩ := eatDigits_decomp r4 _ h3
  constructor
  · rw [hs1]
    intro hcon
    exact hne1 (List.append_eq_nil.mp hcon).1
  · intro x hx
    rw [hs1] at hx
    rcases List.mem_append.mp hx with hx | hx
    · exact digit_vOutOk _ (hdig1 x hx)
    rcases List.mem_cons.mp hx with rfl | hx
    · decide
    rw [hs2] at hx
    rcases List.mem_append.mp hx with hx | hx
    · exact digit_vOutOk _ (hdig2 x hx)
    rcases List.mem_cons.mp hx with rfl | hx
    · decide
    rw [hs3] at hx
    rcases List.mem_append.mp hx with hx | hx
    · exact digit_vOutOk _ (hdig3 x hx)
    · exact versionTail_chars _ h x hx

theorem versionShort_chars (s : Str) (h : versionShort s = true) :
    s ≠ [] ∧ ∀ c ∈ s, vOutOk c = true := by
  unfold versionShort at h
  split at h
  · cases h
  rename_i r1 h1
  split at h
  · cases h
  rename_i c1 r2
  split at h
  swap
  · cases h
  rename_i hc1
  subst hc1
  split at h
  swap
  · cases h
  rename_i r3 h2
  obtain ⟨hs1, hne1, hdig1⟩ := eatDigits_decomp s _ h1
  obtain ⟨hs2, hne2, hdig2⟩ := eatDigits_decomp r2 _ h2
  constructor
  · rw [hs1]
    intro hcon
    exact hne1 (List.append_eq_nil.mp hcon).1
  · intro x hx
    rw [hs1] at hx
    rcases List.mem_append.mp hx with hx | hx
    · exact digit_vOutOk _ (hdig1 x hx)
    rcases List.mem_cons.mp hx with rfl | hx
    · decide
    rw [hs2] at hx
    rcases List.mem_append.mp hx with hx | hx
    · exact digit_vOutOk _ (hdig2 x hx)
    · rw [List.mem_nil_iff] at hx
      cases hx

theorem normalizeVersion_chars (s v : Str) (h : normalizeVersion s = some v) :
    v ≠ [] ∧ ∀ c ∈ v, vOutOk c = true := by
  simp only [normalizeVersion] at h
  split at h
  · obtain rfl := Option.some.inj h
    exact versionFull_chars _ (by assumption)
  split at h
  · obtain rfl := Option.some.inj h
    obtain ⟨hne, hch⟩ := versionShort_chars _ (by assumption)
    constructor
    · simp
    · intro x hx
      rcases List.mem_append.mp hx with hx | hx
      · exact hch x hx
      · rcases List.mem_cons.mp hx with rfl | hx
        · decide
        · rcases List.mem_cons.mp hx with rfl | hx
          · decide
          · cases hx
  split at h
  · obtain rfl := Option.some.inj h
    rename_i hmaj
    simp only [versionMajor, Bool.and_eq_true, decide_eq_true_eq] at hmaj
    constructor
    · simp
    · intro x hx
      rcases List.mem_append.mp hx with hx | hx
      · exact digit_vOutOk _ ((List.all_eq_true.mp hmaj.2) x hx)
      · simp only [List.mem_cons, List.mem_singleton] at hx
        rcases hx with rfl | rfl | rfl | rfl | hx
        · decide
        · decide
        · decide
        · decide
        · cases hx
  · cases h

/-- No character admitted by the alias / app-cap / version-output classes is a
slash, an at-sign, or an illegal (`#?`, whitespace, NUL) character. -/
theorem charOk_not_special (c : Char)
    (h : aliasCharOk c = true ∨ appCapCharOk c = true ∨ vOutOk c = true) :
    c ≠ '/' ∧ c ≠ '@' ∧ illegalChar c = false := by
  refine ⟨?_, ?_, ?_⟩
  · intro hc
    subst hc
    rcases h with h | h | h <;> exact absurd h (by decide)
  · intro hc
    subst hc
    rcases h with h | h | h <;> exact absurd h (by decide)
  · by_contra hb
    rw [Bool.not_eq_false] at hb
    simp only [illegalChar, Bool.or_eq_true, decide_eq_true_eq] at hb
    rcases hb with ((rfl | rfl) | hb) | rfl
    · rcases h with h | h | h <;> exact absurd h (by decide)
    · rcases h with h | h | h <;> exact absurd h (by decide)
    · have hmem : c ∈ jsSpaceChars := by
        simpa [isJsSpace] using hb
      fin_cases hmem <;>
        (rcases h with h | h | h <;> exact absurd h (by decide))
    · rcases h with h | h | h <;> exact absurd h (by decide)

theorem aliasRE_chars (a : Str) (h : ALIAS_RE a = true) :
    a ≠ [] ∧ ∀ c ∈ a, aliasCharOk c = true := by
  rcases a with _ | ⟨c, rest⟩
  · cases h
  · simp only [ALIAS_RE, Bool.and_eq_true] at h
    refine ⟨by simp, ?_⟩
    intro x hx
    rcases List.mem_cons.mp hx with rfl | hx
    · simp [aliasCharOk, h.1]
    · exact (List.all_eq_true.mp h.2) x hx

theorem appCapRE_chars (a : Str) (h : APP_CAP_RE a = true) :
    a ≠ [] ∧ ∀ c ∈ a, appCapCharOk c = true := by
  rcases a with _ | ⟨c, rest⟩
  · cases h
  · simp only [APP_CAP_RE, Bool.and_eq_true] at h
    refine ⟨by simp, ?_⟩
    intro x hx
    rcases List.mem_cons.mp hx with rfl | hx
    · simp [appCapCharOk, aliasCharOk, h.1]
    · exact (List.all_eq_true.mp h.2) x hx

theorem splitFirst_not_mem (c : Char) (s : Str) (h : c ∉ s) :
    splitFirst c s = none := by
  induction s with
  | nil => rfl
  | cons x rest ih =>
    have hx : x ≠ c := fun hEq => h (hEq ▸ List.mem_cons_self x rest)
    have hrest : c ∉ rest := fun hm => h (List.mem_cons_of_mem x hm)
    simp [splitFirst, hx, ih hrest]

theorem splitFirst_append (c : Char) (xs ys : Str) (h : c ∉ xs) :
    splitFirst c (xs ++ c :: ys) = some (xs, ys) := by
  induction xs with
  | nil => simp [splitFirst]
  | cons x rest ih =>
    have hx : x ≠ c := fun hEq => h (hEq ▸ List.mem_cons_self x rest)
    have hrest : c ∉ rest := fun hm => h (List.mem_cons_of_mem x hm)
    simp [splitFirst, hx, ih hrest]

theorem splitLast_append (c : Char) (xs ys : Str) (h : c ∉ ys) :
    splitLast c (xs ++ c :: ys) = some (xs, ys) := by
  unfold splitLast
  have hrev : (xs ++ c :: ys).reverse = ys.reverse ++ c :: xs.reverse := by
    simp
  rw [hrev, splitFirst_append c ys.reverse xs.reverse (by simpa using h)]
  simp

theorem splitLast_not_mem (c : Char) (s : Str) (h : c ∉ s) :
    splitLast c s = none := by
  unfold splitLast
  rw [splitFirst_not_mem c s.reverse (by simpa using h)]

theorem dropWhile_all_neg {p : Char → Bool} (s : Str)
    (h : ∀ c ∈ s, p c = false) : s.dropWhile p = s := by
  rcases s with _ | ⟨x, rest⟩
  · rfl
  · rw [List.dropWhile_cons_of_neg]
    simp [h x (List.mem_cons_self x rest)]

theorem jsTrim_all_nonspace (s : Str) (h : ∀ c ∈ s, isJsSpace c = false) :
    jsTrim s = s := by
  unfold jsTrim
  rw [dropWhile_all_neg s h,
    dropWhile_all_neg s.reverse (fun c hc => h c (List.mem_reverse.mp hc))]
  simp

theorem illegal_false_space (c : Char) (h : illegalChar c = false) :
    isJsSpace c = false := by
  simp only [illegalChar, Bool.or_eq_false_iff] at h
  exact h.1.2

/-- Parsing the canonical rendering `cap:@<al>/<app>/<cap>@<v>` recovers its
components, provided the components respect their grammars. -/
theorem parse_canonical (al app cap v : Str)
    (hal : ALIAS_RE al = true) (hlow : al.map Char.toLower = al)
    (happ : APP_CAP_RE app = true) (hcap : APP_CAP_RE cap = true)
    (hv : v ≠ []) (hvok : ∀ c ∈ v, vOutOk c = true) :
    parseReference
        ('c' :: 'a' :: 'p' :: ':' :: '@' ::
          (al ++ '/' :: (app ++ '/' :: (cap ++ '@' :: v)))) =
      some ⟨some al, app, cap, some v,
        'c' :: 'a' :: 'p' :: ':' :: '@' ::
          (al ++ '/' :: (app ++ '/' :: (cap ++ '@' :: v)))⟩ := by
  obtain ⟨halne, halch⟩ := aliasRE_chars al hal
  obtain ⟨happne, happch⟩ := appCapRE_chars app happ
  obtain ⟨hcapne, hcapch⟩ := appCapRE_chars cap hcap
  have hclean : ∀ c ∈ ('c' :: 'a' :: 'p' :: ':' :: '@' ::
      (al ++ '/' :: (app ++ '/' :: (cap ++ '@' :: v)))), illegalChar c = false := by
    intro c hc
    rcases List.mem_cons.mp hc with rfl | hc
    · decide
    rcases List.mem_cons.mp hc with rfl | hc
    · decide
    rcases List.mem_cons.mp hc with rfl | hc
    · decide
    rcases List.mem_cons.mp hc with rfl | hc
    · decide
    rcases List.mem_cons.mp hc with rfl | hc
    · decide
    rcases List.mem_append.mp hc with hc | hc
    · exact (charOk_not_special c (Or.inl (halch c hc))).2.2
    rcases List.mem_cons.mp hc with rfl | hc
    · decide
    rcases List.mem_append.mp hc with hc | hc
    · exact (charOk_not_special c (Or.inr (Or.inl (happch c hc)))).2.2
    rcases List.mem_cons.mp hc with rfl | hc
    · decide
    rcases List.mem_append.mp hc with hc | hc
    · exact (charOk_not_special c (Or.inr (Or.inl (hcapch c hc)))).2.2
    rcases List.mem_cons.mp hc with rfl | hc
    · decide
    · exact (charOk_not_special c (Or.inr (Or.inr (hvok c hc)))).2.2
  have htrim : jsTrim ('c' :: 'a' :: 'p' :: ':' :: '@' ::
      (al ++ '/' :: (app ++ '/' :: (cap ++ '@' :: v)))) =
      'c' :: 'a' :: 'p' :: ':' :: '@' ::
        (al ++ '/' :: (app ++ '/' :: (cap ++ '@' :: v))) :=
    jsTrim_all_nonspace _ (fun c hc => illegal_false_space c (hclean c hc))
  have hillegal : hasIllegalChars ('c' :: 'a' :: 'p' :: ':' :: '@' ::
      (al ++ '/' :: (app ++ '/' :: (cap ++ '@' :: v)))) = false := by
    simp only [hasIllegalChars, List.any_eq_false]
    intro c hc
    simp [hclean c hc]
  have hsf1 : splitFirst '/' ('@' :: (al ++ '/' :: (app ++ '/' :: (cap ++ '@' :: v)))) =
      some ('@' :: al, app ++ '/' :: (cap ++ '@' :: v)) := by
    have : ('@' :: (al ++ '/' :: (app ++ '/' :: (cap ++ '@' :: v)))) =
        (('@' :: al) ++ '/' :: (app ++ '/' :: (cap ++ '@' :: v))) := rfl
    rw [this]
    apply splitFirst_append
    intro hmem
    rcases List.mem_cons.mp hmem with h | h
    · exact absurd h.symm (by decide)
    · exact (charOk_not_special _ (Or.inl (halch _ h))).1 rfl
  have hsf2 : splitFirst '/' (app ++ '/' :: (cap ++ '@' :: v)) =
      some (app, cap ++ '@' :: v) := by
    apply splitFirst_append
    intro hmem
    exact (charOk_not_special _ (Or.inr (Or.inl (happch _ hmem)))).1 rfl
  have hsl : splitLast '@' (cap ++ '@' :: v) = some (cap, v) := by
    apply splitLast_append
    intro hmem
    exact (charOk_not_special _ (Or.inr (Or.inr (hvok _ hmem)))).2.1 rfl
  have hpa : parseAlias ('@' :: (al ++ '/' :: (app ++ '/' :: (cap ++ '@' :: v)))) =
      some (some al, app ++ '/' :: (cap ++ '@' :: v)) := by
    simp only [parseAlias, List.head?_cons, if_pos, hsf1, List.drop_one,
      List.tail_cons, hlow]
    simp [halne, hal]
  have hpcv : parseCapVersion (cap ++ '@' :: v) = some (cap, some v) := by
    simp [parseCapVersion, hsl, hv]
  simp only [parseReference, htrim, hillegal]
  rw [if_neg (by simp : ¬ ('c' :: 'a' :: 'p' :: ':' :: '@' ::
    (al ++ '/' :: (app ++ '/' :: (cap ++ '@' :: v))) = []))]
  simp only [Bool.false_eq_true, if_false]
  rw [if_pos (by simp [List.isPrefixOf] :
    "cap:".data.isPrefixOf ('c' :: 'a' :: 'p' :: ':' :: '@' ::
      (al ++ '/' :: (app ++ '/' :: (cap ++ '@' :: v)))) = true)]
  simp only [List.drop_succ_cons, List.drop_zero, hpa]
  simp [hsf2, hpcv, halne, hal, happne, happ, hcapne, hcap, hv]

theorem parseAlias_inv (w : Str) (al : Option Str) (w2 : Str)
    (h : parseAlias w = some (al, w2)) :
    ∀ a, al = some a → ALIAS_RE a = true ∧ a.map Char.toLower = a := by
  intro a ha
  subst ha
  unfold parseAlias at h
  split at h
  · split at h
    · cases h
    · split at h
      · cases h
      split at h
      · cases h
      rename_i upToSlash afterSlash hane hREf
      obtain heq := Option.some.inj h
      have h1 := congrArg Prod.fst heq
      simp only at h1
      obtain rfl := Option.some.inj h1
      exact ⟨by simpa using hREf, map_toLower_idem _⟩
  · obtain heq := Option.some.inj h
    have h1 := congrArg Prod.fst heq
    simp at h1

theorem parseReference_inv (r : Str) (p : ParsedReference)
    (hp : parseReference r = some p) :
    (∀ a, p.aliasName = some a → ALIAS_RE a = true ∧ a.map Char.toLower = a) ∧
    APP_CAP_RE p.app = true ∧ APP_CAP_RE p.cap = true := by
  simp only [parseReference] at hp
  repeat' (split at hp <;> try (cases hp))
  all_goals
    refine ⟨parseAlias_inv _ _ _ (by assumption), ?_, ?_⟩ <;> simp_all

/-- **C9 (counterexample).**  `parseReference` validates `app` and `cap` but
*not* the version text, so `"a/b@x"` parses successfully; canonicalizing that
parse result (with any resolved version, here `"1"`) throws, because
`normalizeVersion "x"` rejects — the claimed round trip fails at its first
step. -/
theorem parse_canonicalize_counterexample :
    parseReference "a/b@x".data =
      some ⟨none, "a".data, "b".data, some "x".data, "a/b@x".data⟩ ∧
    canonicalize ⟨none, "a".data, "b".data, some "x".data, "a/b@x".data⟩
      (some ⟨none, some "1".data⟩) = none := by
  decide

/-- **C9 (amended).**  For every reference `r` accepted by `parseReference`
*whose parsed version (when present and non-empty) is itself accepted by
`normalizeVersion`*, and every `v` accepted by `normalizeVersion`,
canonicalizing the parse result with resolved version `v` succeeds, and
parsing the canonical string succeeds and yields the canonical form's
`alias` (the original alias lowercased, or `"main"` when absent), `app` and
`cap`. -/
theorem parse_canonicalize_roundtrip (r v : Str) (p : ParsedReference)
    (hp : parseReference r = some p)
    (hver : ∀ pv, p.version = some pv → (normalizeVersion pv).isSome = true)
    (hv : (normalizeVersion v).isSome = true) :
    ∃ c p2, canonicalize p (some ⟨none, some v⟩) = some c ∧
      parseReference c = some p2 ∧
      p2.aliasName = some ((p.aliasName.getD "main".data).map Char.toLower) ∧
      p2.app = p.app ∧ p2.cap = p.cap := by
  obtain ⟨hAl, hApp, hCap⟩ := parseReference_inv r p hp
  have hvne : v ≠ [] := by
    intro hv0
    rw [hv0] at hv
    exact absurd hv (by decide)
  have halprops : ALIAS_RE ((p.aliasName.getD "main".data).map Char.toLower) = true ∧
      ((p.aliasName.getD "main".data).map Char.toLower).map Char.toLower =
        (p.aliasName.getD "main".data).map Char.toLower := by
    rcases hpa : p.aliasName with _ | a
    · exact ⟨by decide, by decide⟩
    · obtain ⟨hre, hlowa⟩ := hAl a hpa
      simp only [Option.getD]
      rw [hlowa]
      exact ⟨hre, hlowa⟩
  obtain ⟨nv, hnv, s0, hnvsrc⟩ : ∃ nv,
      canonicalize p (some ⟨none, some v⟩) =
        some ("cap:@".data ++ (p.aliasName.getD "main".data).map Char.toLower ++
          "/".data ++ p.app ++ "/".data ++ p.cap ++ "@".data ++ nv) ∧
      ∃ s0, normalizeVersion s0 = some nv := by
    rcases hpv : p.version with _ | pv
    · obtain ⟨nv, hnv⟩ := Option.isSome_iff_exists.mp hv
      refine ⟨nv, ?_, v, hnv⟩
      simp [canonicalize, hpv, strTruthy, hvne, hnv]
    · by_cases hpvne : pv = []
      · subst hpvne
        obtain ⟨nv, hnv⟩ := Option.isSome_iff_exists.mp hv
        refine ⟨nv, ?_, v, hnv⟩
        simp [canonicalize, hpv, strTruthy, hvne, hnv]
      · obtain ⟨nv, hnv⟩ := Option.isSome_iff_exists.mp (hver pv hpv)
        refine ⟨nv, ?_, pv, hnv⟩
        simp [canonicalize, hpv, strTruthy, hpvne, hnv]
  obtain ⟨hnvne, hnvok⟩ := normalizeVersion_chars s0 nv hnvsrc
  have hstr : "cap:@".data ++ (p.aliasName.getD "main".data).map Char.toLower ++
      "/".data ++ p.app ++ "/".data ++ p.cap ++ "@".data ++ nv =
      'c' :: 'a' :: 'p' :: ':' :: '@' ::
        ((p.aliasName.getD "main".data).map Char.toLower ++
          '/' :: (p.app ++ '/' :: (p.cap ++ '@' :: nv))) := by
    simp
  have hparse := parse_canonical ((p.aliasName.getD "main".data).map Char.toLower)
    p.app p.cap nv halprops.1 halprops.2 hApp hCap hnvne hnvok
  refine ⟨_, ⟨some ((p.aliasName.getD "main".data).map Char.toLower), p.app, p.cap,
    some nv, 'c' :: 'a' :: 'p' :: ':' :: '@' ::
      ((p.aliasName.getD "main".data).map Char.toLower ++
        '/' :: (p.app ++ '/' :: (p.cap ++ '@' :: nv)))⟩,
    hnv, ?_, rfl, rfl, rfl⟩
  rw [hstr]
  exact hparse

/-- Closed witness for `parse_canonicalize_roundtrip` at
`r = "@Partner/my.app/img@2"` and `v = "1.2"`. -/
theorem parse_canonicalize_roundtrip_witness :
    ∃ c p2, canonicalize
        ⟨some "partner".data, "my.app".data, "img".data, some "2".data,
          "@Partner/my.app/img@2".data⟩ (some ⟨none, some "1.2".data⟩) =
        some c ∧
      parseReference c = some p2 ∧
      p2.aliasName = some "partner".data ∧
      p2.app = "my.app".data ∧ p2.cap = "img".data := by
  have h := parse_canonicalize_roundtrip "@Partner/my.app/img@2".data "1.2".data
    ⟨some "partner".data, "my.app".data, "img".data, some "2".data,
      "@Partner/my.app/img@2".data⟩
    (by decide) (by decide) (by decide)
  obtain ⟨c, p2, h1, h2, h3, h4, h5⟩ := h
  exact ⟨c, p2, h1, h2, by rw [h3]; decide, h4, h5⟩
